import Mathlib

/-!
Shallow embedding of `narwhal/cast.py` (Cast / CTDCast / CastCollection).

Modelling conventions:
* Floating-point values are modelled by `F := Option ℚ`, where `none` plays
  the role of IEEE NaN and every arithmetic operation propagates `none`.
  (No claim under consideration depends on rounding, infinities, or on the
  value of a division by zero.)
* Python dicts (`Cast.data`, `Cast.properties`) are modelled as
  insertion-ordered association lists; updating an existing key keeps its
  position, a new key is appended — matching CPython dict semantics.
* Exceptions are modelled with `Except Err`.
* External collaborators that are not part of the repository sources
  (the `gsw` thermodynamics functions, `karta` great-circle distance,
  `numpy` trigonometry and the `util` finite-difference helpers) are
  collected in an explicit `Env` parameter; see the `Env` doc comment.
-/

/-- A floating-point scalar: `none` models NaN. -/
abbrev F := Option ℚ

/-- NaN-propagating addition. -/
def fadd : F → F → F
  | some a, some b => some (a + b)
  | _, _ => none

/-- NaN-propagating subtraction. -/
def fsub : F → F → F
  | some a, some b => some (a - b)
  | _, _ => none

/-- NaN-propagating multiplication (IEEE: NaN * x = NaN, including x = 0). -/
def fmul : F → F → F
  | some a, some b => some (a * b)
  | _, _ => none

/-- NaN-propagating division.  (Division of a finite value by zero yields
`some 0` here rather than an IEEE infinity; no claim exercises that case.) -/
def fdiv : F → F → F
  | some a, some b => some (a / b)
  | _, _ => none

/-- `np.isnan`. -/
def fisnan : F → Bool
  | none => true
  | some _ => false

/-- `x > 0` as evaluated by numpy: any comparison with NaN is `False`. -/
def fgtZero : F → Bool
  | some q => decide (0 < q)
  | none => false

/-- NaN-propagating binary max (used by the spec-modelled monotonic coercion). -/
def fmax : F → F → F
  | some a, some b => some (max a b)
  | _, _ => none

/-- Python exceptions raised by the embedded code. -/
inductive Err where
  | keyError (k : String)
  | indexError
  | valueError (msg : String)
  | typeError
  | nameError
deriving DecidableEq

/-- Lookup in an insertion-ordered association list (Python `d[k]` / `k in d`). -/
def alookup {α : Type} : List (String × α) → String → Option α
  | [], _ => none
  | (k', v) :: rest, k => if k' = k then some v else alookup rest k

/-- Update-or-append for an insertion-ordered association list
(Python `d[k] = v`): an existing key keeps its position, a new key is
appended at the end. -/
def ainsert {α : Type} : List (String × α) → String → α → List (String × α)
  | [], k, v => [(k, v)]
  | (k', v') :: rest, k, v =>
      if k' = k then (k, v) :: rest else (k', v') :: ainsert rest k v

/-- The keys of an association list, in insertion order. -/
def akeys {α : Type} (l : List (String × α)) : List String := l.map Prod.fst

theorem alookup_ainsert_self {α : Type} (l : List (String × α)) (k : String) (v : α) :
    alookup (ainsert l k v) k = some v := by
  induction l with
  | nil => simp [ainsert, alookup]
  | cons hd tl ih =>
      by_cases h : hd.1 = k
      · simp [ainsert, alookup, h]
      · simp [ainsert, alookup, h, ih]

theorem alookup_ainsert_ne {α : Type} (l : List (String × α)) (k k' : String) (v : α)
    (h : k ≠ k') : alookup (ainsert l k v) k' = alookup l k' := by
  induction l with
  | nil => simp [ainsert, alookup, h]
  | cons hd tl ih =>
      by_cases h1 : hd.1 = k
      · simp [ainsert, alookup, h1, h]
      · simp only [ainsert, h1, if_false, alookup]
        by_cases h2 : hd.1 = k' <;> simp [h2, ih]

theorem alookup_eq_none_of_not_mem_akeys {α : Type} (l : List (String × α)) (k : String)
    (h : k ∉ akeys l) : alookup l k = none := by
  induction l with
  | nil => rfl
  | cons hd tl ih =>
      obtain ⟨k', v⟩ := hd
      simp only [akeys, List.map_cons, List.mem_cons] at h
      push_neg at h
      rw [alookup, if_neg (fun he => h.1 he.symm)]
      exact ih (by simpa [akeys] using h.2)

theorem mem_akeys_of_alookup_isSome {α : Type} (l : List (String × α)) (k : String)
    (h : (alookup l k).isSome) : k ∈ akeys l := by
  by_contra hk
  rw [alookup_eq_none_of_not_mem_akeys l k hk] at h
  simp at h

theorem ainsert_eq_append_of_not_mem {α : Type} (l : List (String × α)) (k : String) (v : α)
    (h : k ∉ akeys l) : ainsert l k v = l ++ [(k, v)] := by
  induction l with
  | nil => rfl
  | cons hd tl ih =>
      obtain ⟨k', v'⟩ := hd
      simp only [akeys, List.map_cons, List.mem_cons] at h
      push_neg at h
      rw [ainsert, if_neg (fun he => h.1 he.symm), List.cons_append,
        ih (by simpa [akeys] using h.2)]

/-! ### Decimal rendering of naturals (Python `str(i)`) and key suffixing -/

/-- The character for a single decimal digit. -/
def digitCh (d : Nat) : Char := Char.ofNat (48 + d)

/-- Decimal string of a natural number (the behaviour of Python `str`). -/
def natStr (n : Nat) : String :=
  if n = 0 then "0" else ⟨((Nat.digits 10 n).reverse.map digitCh)⟩

/-- `key + "_" + str(i)` as built by `Cast._addkeydata`. -/
def addSuffix (key : String) (i : Nat) : String := key ++ "_" ++ natStr i

theorem digitCh_inj_fin : ∀ a b : Fin 10, digitCh a.1 = digitCh b.1 → a = b := by decide

theorem digitCh_inj {a b : Nat} (ha : a < 10) (hb : b < 10) (h : digitCh a = digitCh b) :
    a = b := by
  have := digitCh_inj_fin ⟨a, ha⟩ ⟨b, hb⟩ h
  exact congrArg Fin.val this

theorem map_digitCh_inj : ∀ (l₁ l₂ : List Nat), (∀ x ∈ l₁, x < 10) → (∀ x ∈ l₂, x < 10) →
    l₁.map digitCh = l₂.map digitCh → l₁ = l₂ := by
  intro l₁
  induction l₁ with
  | nil => intro l₂ _ _ h; cases l₂ <;> simp_all
  | cons a t ih =>
      intro l₂ h₁ h₂ h
      cases l₂ with
      | nil => simp at h
      | cons b t₂ =>
          simp only [List.map_cons, List.cons.injEq] at h
          have ha := h₁ a (by simp)
          have hb := h₂ b (by simp)
          have := digitCh_inj ha hb h.1
          subst this
          have := ih t₂ (fun x hx => h₁ x (by simp [hx])) (fun x hx => h₂ x (by simp [hx])) h.2
          simp [this]

theorem natStr_inj {a b : Nat} (ha : 0 < a) (hb : 0 < b) (h : natStr a = natStr b) : a = b := by
  unfold natStr at h
  rw [if_neg (Nat.pos_iff_ne_zero.mp ha), if_neg (Nat.pos_iff_ne_zero.mp hb)] at h
  have hdata : ((Nat.digits 10 a).reverse.map digitCh) = ((Nat.digits 10 b).reverse.map digitCh) := by
    exact congrArg String.data h
  have hrev := map_digitCh_inj _ _
    (fun x hx => Nat.digits_lt_base (by norm_num) (List.mem_reverse.mp hx))
    (fun x hx => Nat.digits_lt_base (by norm_num) (List.mem_reverse.mp hx)) hdata
  have hdig : Nat.digits 10 a = Nat.digits 10 b := by
    have := congrArg List.reverse hrev
    simpa using this
  have := congrArg (Nat.ofDigits 10) hdig
  rwa [Nat.ofDigits_digits, Nat.ofDigits_digits] at this

theorem addSuffix_inj {key : String} {a b : Nat} (ha : 0 < a) (hb : 0 < b)
    (h : addSuffix key a = addSuffix key b) : a = b := by
  unfold addSuffix at h
  have hdata := congrArg String.data h
  simp only [String.data_append, List.append_assoc] at hdata
  have h2 : (natStr a).data = (natStr b).data :=
    List.append_cancel_left (List.append_cancel_left hdata)
  exact natStr_inj ha hb (String.ext h2)

/-- The suffix-search loop of `Cast._addkeydata`
(`while key_ in self.data: key_ = key + "_" + str(i); i += 1`),
written with explicit fuel. -/
def freshKeyGo (keys : List String) (key : String) : Nat → Nat → String
  | _, 0 => addSuffix key 2
  | i, fuel + 1 =>
      let cand := addSuffix key i
      if cand ∈ keys then freshKeyGo keys key (i + 1) fuel else cand

/-- `Cast._addkeydata`'s collision-avoiding key choice: `key` itself if unused,
otherwise the first unused of `key_2`, `key_3`, …  The fuel
`keys.length + 1` is enough: the candidates are pairwise distinct. -/
def freshKey (keys : List String) (key : String) : String :=
  if key ∈ keys then freshKeyGo keys key 2 (keys.length + 1) else key

theorem freshKeyGo_shape (keys : List String) (key : String) :
    ∀ fuel i, 2 ≤ i → ∃ j, 2 ≤ j ∧ freshKeyGo keys key i fuel = addSuffix key j := by
  intro fuel
  induction fuel with
  | zero => intro i _; exact ⟨2, le_refl 2, rfl⟩
  | succ fuel ih =>
      intro i hi
      unfold freshKeyGo
      by_cases h : addSuffix key i ∈ keys
      · simpa [h] using ih (i + 1) (by omega)
      · exact ⟨i, hi, by simp [h]⟩

theorem freshKeyGo_not_mem (keys : List String) (key : String) :
    ∀ fuel i, (∃ t, t < fuel ∧ addSuffix key (i + t) ∉ keys) →
    freshKeyGo keys key i fuel ∉ keys := by
  intro fuel
  induction fuel with
  | zero => rintro i ⟨t, ht, _⟩; omega
  | succ fuel ih =>
      rintro i ⟨t, ht, hmem⟩
      unfold freshKeyGo
      by_cases h : addSuffix key i ∈ keys
      · simp only [h, if_true]
        apply ih
        have ht0 : t ≠ 0 := by rintro rfl; simp only [Nat.add_zero] at hmem; exact hmem h
        refine ⟨t - 1, by omega, ?_⟩
        have heq : i + 1 + (t - 1) = i + t := by omega
        rw [heq]; exact hmem
      · rw [if_neg h]; exact h

/-- Pigeonhole: among the `keys.length + 1` candidates `key_i, key_(i+1), …`
(for `2 ≤ i`, so all indices are positive and the candidates distinct),
at least one is not in `keys`. -/
theorem exists_candidate_not_mem (keys : List String) (key : String) (i : Nat) (hi : 2 ≤ i) :
    ∃ t, t < keys.length + 1 ∧ addSuffix key (i + t) ∉ keys := by
  by_contra hall
  push_neg at hall
  have hsub : ∀ t ∈ List.range (keys.length + 1), addSuffix key (i + t) ∈ keys := by
    intro t ht
    exact hall t (List.mem_range.mp ht)
  set cands := (List.range (keys.length + 1)).map (fun t => addSuffix key (i + t)) with hc
  have hnodup : cands.Nodup := by
    apply List.Nodup.map_on _ (List.nodup_range _)
    intro x _ y _ hxy
    have := @addSuffix_inj key (i + x) (i + y) (by omega : 0 < i + x) (by omega : 0 < i + y) hxy
    omega
  have hsubset : cands ⊆ keys := by
    intro s hs
    rw [hc] at hs
    simp only [List.mem_map, List.mem_range] at hs
    obtain ⟨t, ht, rfl⟩ := hs
    exact hall t ht
  have hlen : cands.length = keys.length + 1 := by simp [hc]
  have h1 : cands.toFinset.card = cands.length := List.toFinset_card_of_nodup hnodup
  have h2 : cands.toFinset ⊆ keys.toFinset := by
    intro s hs
    rw [List.mem_toFinset] at hs ⊢
    exact hsubset hs
  have h3 := Finset.card_le_card h2
  have h4 := List.toFinset_card_le keys
  omega

theorem freshKey_not_mem (keys : List String) (key : String) : freshKey keys key ∉ keys := by
  unfold freshKey
  by_cases h : key ∈ keys
  · simp only [h, if_true]
    exact freshKeyGo_not_mem keys key _ 2 (exists_candidate_not_mem keys key 2 (le_refl 2))
  · rw [if_neg h]; exact h

theorem freshKey_of_mem (keys : List String) (key : String) (h : key ∈ keys) :
    ∃ j, 2 ≤ j ∧ freshKey keys key = addSuffix key j := by
  unfold freshKey
  simp only [h, if_true]
  exact freshKeyGo_shape keys key _ 2 (le_refl 2)

theorem freshKey_of_not_mem (keys : List String) (key : String) (h : key ∉ keys) :
    freshKey keys key = key := by
  unfold freshKey
  simp [h]

/-! ### The Cast data model (`cast.py` lines 38–275) -/

/-- A value stored in `Cast.properties` or passed as a keyword argument:
a numeric scalar, a numeric vector (a `collections.Container` that is not a
string), a string, or the coordinate pair stored under `"coordinates"`. -/
inductive PVal where
  | num (x : F)
  | vec (v : List F)
  | strv (s : String)
  | coordv (c : Option (ℚ × ℚ))
deriving DecidableEq

/-- The `Cast` object state: `primarykey`, the `data` dict of vector fields,
the ordered `_fields` list, the `properties` dict, and the cached `_len`. -/
structure Cast where
  primarykey : String
  data : List (String × List F)
  fields : List String
  properties : List (String × PVal)
  len : Nat
deriving DecidableEq

/-- `Cast.coords`: `self.properties["coordinates"]`. -/
def Cast.coords (c : Cast) : Option (ℚ × ℚ) :=
  match alookup c.properties "coordinates" with
  | some (.coordv co) => co
  | _ => none

/-- `Cast.__init__`: store the primary vector under `primarykey`, then for
each keyword argument store it as a data field when it is a non-string
container whose length matches `len(p)`, and as a property otherwise.
`properties["coordinates"]` is always set to `coords`.
The per-keyword step is split out as `mkCastStep` for the proofs. -/
def mkCastStep (plen : Nat) (c : Cast) (kv : String × PVal) : Cast :=
  match kv.2 with
  | .vec v =>
      if v.length = plen then
        { c with data := ainsert c.data kv.1 v, fields := c.fields ++ [kv.1] }
      else { c with properties := ainsert c.properties kv.1 kv.2 }
  | _ => { c with properties := ainsert c.properties kv.1 kv.2 }

def mkCast (p : List F) (coords : Option (ℚ × ℚ)) (props : List (String × PVal))
    (primarykey : String) (kwargs : List (String × PVal)) : Cast :=
  let props := ainsert props "coordinates" (.coordv coords)
  let init : Cast :=
    { primarykey := primarykey, data := [(primarykey, p)], fields := [primarykey],
      properties := props, len := p.length }
  kwargs.foldl (mkCastStep p.length) init

/-- `CTDCast.__init__`: a Cast with keyword vectors `sal` and `temp`
(in that keyword order) and primary key `"pres"`. -/
def mkCTDCast (p sal temp : List F) (coords : Option (ℚ × ℚ))
    (props : List (String × PVal)) (kwargs : List (String × PVal)) : Cast :=
  mkCast p coords props "pres" ([("sal", .vec sal), ("temp", .vec temp)] ++ kwargs)

/-- numpy indexing of a 1-D array by a possibly negative integer:
`-n ≤ i < n` resolves (negative indices count from the end), anything else
raises `IndexError`. -/
def npIndex (v : List F) (i : Int) : Except Err F :=
  let j : Int := if i < 0 then i + v.length else i
  if h : 0 ≤ j ∧ j < v.length then
    .ok (v.get ⟨j.toNat, by omega⟩)
  else .error .indexError

/-- `Cast.__getitem__` with an integer key: guarded only by `key < self._len`,
then builds the `(field, value)` pairs by indexing each data vector
(every vector has `__iter__`, so the `hasattr` filter keeps all fields).
A field listed in `_fields` but missing from `data` raises `KeyError`. -/
def Cast.getInt (c : Cast) (i : Int) : Except Err (List (String × F)) :=
  if i < (c.len : Int) then
    c.fields.foldr (fun a acc => do
      let v ← match alookup c.data a with
              | some v => Except.ok v
              | none => Except.error (Err.keyError a)
      let x ← npIndex v i
      let rest ← acc
      Except.ok ((a, x) :: rest)) (Except.ok [])
  else .error .indexError

/-- `Cast.__getitem__` with a string key: `data` first, then `properties`,
else `KeyError`.  (A data field is returned as a vector; a scalar property
as a `PVal`.) -/
def Cast.getStr (c : Cast) (k : String) : Except Err PVal :=
  match alookup c.data k with
  | some v => .ok (.vec v)
  | none =>
      match alookup c.properties k with
      | some pv => .ok pv
      | none => .error (.keyError k)

/-- `self[key]` where the caller goes on to treat the result as a numeric
vector (as every derived-field method does).  A scalar result raises
`TypeError` at the first elementwise operation; numpy broadcasting of a
scalar property into a vector context is outside the model (no claim
exercises it). -/
def Cast.getVec (c : Cast) (k : String) : Except Err (List F) := do
  match ← c.getStr k with
  | .vec v => .ok v
  | _ => .error .typeError

/-- `Cast.__setitem__` with a string key: a non-string container whose
length equals `len(self[self.primarykey])` becomes a data field (appending
to `_fields` when new); everything else becomes a property.  Raises
`KeyError` when the primary key is missing from `data`. -/
def Cast.setStr (c : Cast) (k : String) (val : PVal) : Except Err Cast := do
  let pv ← c.getVec c.primarykey
  match val with
  | .vec v =>
      if v.length = pv.length then
        .ok { c with data := ainsert c.data k v,
                     fields := if k ∈ c.fields then c.fields else c.fields ++ [k] }
      else .ok { c with properties := ainsert c.properties k val }
  | _ => .ok { c with properties := ainsert c.properties k val }

/-- `Cast._addkeydata`: with `overwrite=False` the key is suffixed until it
is not in `data`; the key is appended to `_fields` when absent there; the
vector is stored; the key finally used is returned. -/
def Cast.addKeyData (c : Cast) (key : String) (v : List F) (overwrite : Bool) :
    Cast × String :=
  let key' := if overwrite then key else freshKey (akeys c.data) key
  let fields' := if key' ∈ c.fields then c.fields else c.fields ++ [key']
  ({ c with data := ainsert c.data key' v, fields := fields' }, key')

/-- `Cast.extend`: raises `ValueError` for `n ≤ 0`; otherwise appends
`padvalue * np.empty(n)` to every data vector and adds `n` to `_len`.
`np.empty` returns *uninitialised* memory, modelled by the arbitrary
contents `junk`; the appended cells are `padvalue * junk i`, which equals
`padvalue` only when `padvalue` is NaN. -/
def Cast.extend (c : Cast) (n : Int) (padvalue : F) (junk : Nat → F) : Except Err Cast :=
  if n = 0 then .error (.valueError "Cast already has length 0")
  else if n < 0 then .error (.valueError "Cast is longer than length n")
  else
    let m := n.toNat
    let empty := (List.range m).map (fun i => fmul padvalue (junk i))
    .ok { c with data := c.data.map (fun kv => (kv.1, kv.2 ++ empty)),
                 len := c.len + m }

/-! ### Interpolation and regridding (`cast.py` lines 217–257) -/

/-- `np.diff`: consecutive differences. -/
def diffF (l : List F) : List F := List.zipWith fsub l.tail l

/-- `np.all(np.diff(x) > 0.0)`: the strict-monotonicity test used by
`Cast.interpolate` (any NaN difference makes it `False`). -/
def strictIncr (l : List F) : Bool := (diffF l).all fgtZero

/-- One point of `np.interp(q, xp, fp)` on an ascending grid: `left` for
queries left of the grid, `right` for queries right of it, linear
interpolation on the bracketing interval otherwise.  Modelled as a total
function of the external numpy primitive (an empty grid, which makes numpy
raise, returns NaN here; no claim exercises that case).  A NaN query or a
NaN grid entry yields NaN. -/
def interpPt (left right : F) : List (F × F) → F → F
  | [], _ => none
  | [(x0, y0)], q =>
      match x0, q with
      | some x0q, some qq => if qq < x0q then left else if x0q < qq then right else y0
      | _, _ => none
  | (x0, y0) :: (x1, y1) :: rest, q =>
      match x0, x1, q with
      | some x0q, some x1q, some qq =>
          if qq < x0q then left
          else if qq ≤ x1q then
            match y0, y1 with
            | some a, some b =>
                if x1q = x0q then y1
                else some (a + (b - a) * (qq - x0q) / (x1q - x0q))
            | _, _ => none
          else interpPt left right ((x1, y1) :: rest) q
      | _, _, _ => none

/-- `np.interp(v, xp, fp)` with numpy's default out-of-range fills
`fp[0]` and `fp[-1]`. -/
def npInterp (v xp fp : List F) : List F :=
  v.map (interpPt (fp.headD none) ((fp.getLast?).getD none) (xp.zip fp))

/-- `np.interp(v, xp, fp, left=np.nan, right=np.nan)` as used by `regrid`. -/
def npInterpNaN (v xp fp : List F) : List F :=
  v.map (interpPt none none (xp.zip fp))

/-- Modelled from the spec: `util.force_monotonic` (the repository's `util`
module is not among the sources).  The spec describes it as "a
monotonic-coercion pass (cumulative max / dedup strategy)"; it is modelled
as the cumulative maximum.  Only its totality matters to the claims. -/
def force_monotonic (l : List F) : List F :=
  (l.scanl fmax (some 0)).tail

/-- `Cast.interpolate(y, x, v, force)`: `KeyError` when `y` (checked first)
or `x` is not a data field; interpolate directly when `x` passes the strict
monotonicity test; coerce and interpolate when `force`; `ValueError`
otherwise. -/
def Cast.interpolate (c : Cast) (y x : String) (v : List F) (force : Bool) :
    Except Err (List F) :=
  match alookup c.data y with
  | none => .error (.keyError y)
  | some yv =>
      match alookup c.data x with
      | none => .error (.keyError x)
      | some xv =>
          if strictIncr xv then .ok (npInterp v xv yv)
          else if force then .ok (npInterp v (force_monotonic xv) yv)
          else .error (.valueError "x is not monotonic")

/-- `Cast.regrid(levels)`: deep-copy, set the new length, re-interpolate
every non-primary field against the old primary vector with NaN fills, and
replace the primary vector by `levels`.  (The source's identity test
`key is not self.primarykey` is modelled as string equality: when it
differs, the loop's extra write to the primary key is overwritten by the
final assignment, so the result is the same.)  Raises `KeyError` when the
primary key is missing from `data`. -/
def Cast.regrid (c : Cast) (levels : List F) : Except Err Cast := do
  let pv ← c.getVec c.primarykey
  let data' := c.data.map (fun kv =>
    if kv.1 = c.primarykey then kv else (kv.1, npInterpNaN levels pv kv.2))
  .ok { c with len := levels.length, data := ainsert data' c.primarykey levels }

/-! ### External collaborators and CTDCast derivations (`cast.py` 278–333) -/

/-- Modelled from the spec: the external collaborators the core calls as
pure functions, which are not part of the repository sources —
the thermodynamic-equation-of-seawater conversions
(`gsw.sa_from_sp`, `gsw.ct_from_t`, `gsw.rho`, §6 of the spec: "the core
calls it as a pure function set and treats it as authoritative"),
the `karta` great-circle point distance, numpy trigonometry
(`np.sin(x*np.pi/180)` bundled as one real-valued operation, since π is not
rational), the constant `Ω = 2π/86400`, and the `util` module's transect
difference operator `diff2_inner` and vertical integration `uintegrate`
(§2: "2-D centered/forward differencing across a transect, vertical
integration of shear into absolute velocity").  Theorems quantify over
this environment; witnesses instantiate it concretely. -/
structure Env where
  sa_from_sp : F → F → ℚ → ℚ → F
  ct_from_t : F → F → F → F
  gsw_rho : F → F → F → F
  dist : Option (ℚ × ℚ) → Option (ℚ × ℚ) → ℚ
  sindeg : ℚ → ℚ
  omega : ℚ
  diff2_inner : List (List F) → List ℚ → List (List F)
  uintegrate : List (List F) → List (List F) → List (List F)

/-- Elementwise application of a ternary vectorised function. -/
def zipW3 (f : F → F → F → F) : List F → List F → List F → List F
  | a :: la, b :: lb, c :: lc => f a b c :: zipW3 f la lb lc
  | _, _, _ => []

/-- `G = 9.8` (`cast.py` line 34). -/
def Gconst : F := some (49 / 5)

/-- `CTDCast.add_density`: absolute salinity from practical salinity and
pressure at the cast's coordinates, conservative temperature, in-situ
density, stored via `_addkeydata("rho", ...)`.  `self.coords[0]` raises
`TypeError` when the coordinates are `None`. -/
def Cast.addDensity (env : Env) (c : Cast) : Except Err (Cast × String) := do
  let sal ← c.getVec "sal"
  let pres ← c.getVec "pres"
  let co ← match c.coords with
           | some co => Except.ok co
           | none => Except.error Err.typeError
  let SA := List.zipWith (fun s p => env.sa_from_sp s p co.1 co.2) sal pres
  let temp ← c.getVec "temp"
  let CT := zipW3 env.ct_from_t SA temp pres
  let rhov := zipW3 env.gsw_rho SA CT pres
  .ok (c.addKeyData "rho" rhov false)

/-- The leading-NaN counting loop of `add_depth`
(`r = rho[0]; while np.isnan(r): nnans += 1; r = rho[nnans]`):
walking past the end of the vector raises `IndexError`. -/
def countLeadingNaNs : List F → Except Err Nat
  | [] => .error .indexError
  | r :: rest => if fisnan r then (countLeadingNaNs rest).map (· + 1) else .ok 0

/-- `l[i]` with a non-negative index, `IndexError` out of range. -/
def listGet (l : List F) (i : Nat) : Except Err F :=
  match l.get? i with
  | some x => .ok x
  | none => .error .indexError

/-- The backfill statement of `add_depth`:
`rho[:nnans] = rho[nnans+1]`.  Note the index `nnans+1`: the value written
over the leading NaNs is the entry *after* the first non-NaN one. -/
def nanBackfill (rho : List F) : Except Err (List F) := do
  let nn ← countLeadingNaNs rho
  let fill ← listGet rho (nn + 1)
  .ok (List.replicate nn fill ++ rho.drop nn)

/-- numpy elementwise binary operation with broadcasting of length-1
operands; mismatched lengths raise `ValueError`. -/
def bcOp (op : F → F → F) (a b : List F) : Except Err (List F) :=
  if a.length = b.length then .ok (List.zipWith op a b)
  else if a.length = 1 then .ok (b.map (op (a.headD none)))
  else if b.length = 1 then .ok (a.map (fun x => op x (b.headD none)))
  else .error (.valueError "operands could not be broadcast together")

/-- `np.cumsum` (a NaN poisons every later partial sum, as in numpy). -/
def cumsumF (l : List F) : List F := (l.scanl fadd (some 0)).tail

/-- Write the backfilled density back through the alias `rho = self[rhokey]`:
the in-place slice assignment mutates whichever array `__getitem__`
returned — the data field when `rhokey` is a data key, the stored property
array when it is a vector-valued property. -/
def Cast.writeRho (c : Cast) (rk : String) (rho' : List F) : Cast :=
  match alookup c.data rk with
  | some _ => { c with data := ainsert c.data rk rho' }
  | none =>
      match alookup c.properties rk with
      | some (.vec _) => { c with properties := ainsert c.properties rk (.vec rho') }
      | _ => c

/-- `CTDCast.add_depth`: compute density if no `rhokey` is given, back-fill
leading NaNs in place (see `nanBackfill`), form pressure increments
`dp = [pres[0]] ++ np.diff(pres)`, convert to thickness
`dz = dp / (rho * G) * 1e4`, cumulative-sum to depth, and store via
`_addkeydata("depth", ...)`. -/
def Cast.addDepth (env : Env) (c : Cast) (rhokey : Option String) :
    Except Err (Cast × String) := do
  let (c, rk) ← match rhokey with
                | none => c.addDensity env
                | some k => Except.ok (c, k)
  let rho ← c.getVec rk
  let rho' ← nanBackfill rho
  let c := c.writeRho rk rho'
  let pres ← c.getVec "pres"
  let p0 ← listGet pres 0
  let dp := p0 :: diffF pres
  let denom := rho'.map (fun r => fmul r Gconst)
  let dzq ← bcOp fdiv dp denom
  let dz := dzq.map (fun x => fmul x (some 10000))
  let depth := cumsumF dz
  .ok (c.addKeyData "depth" depth false)

/-! ### CastCollection (`cast.py` lines 453–742) -/

/-- An ordered collection of casts. -/
structure CastCollection where
  casts : List Cast
deriving DecidableEq

/-- Effectful `List.mapM` specialised to `Except Err` (a Python `for` loop
that may raise). -/
def exMapM {α β : Type} (f : α → Except Err β) : List α → Except Err (List β)
  | [] => .ok []
  | a :: rest => do
      let b ← f a
      let bs ← exMapM f rest
      .ok (b :: bs)

/-- A Python slice object `slice(start, stop, step)`. -/
structure PySlice where
  start : Option Int
  stop : Option Int
  step : Option Int
deriving DecidableEq

/-- CPython slice index resolution (`PySlice_AdjustIndices`): negative
indices count from the end, out-of-range bounds are clamped, `step = 0`
raises `ValueError`.  Returns the selected positions. -/
def sliceIndices (n : Nat) (s : PySlice) : Except Err (List Nat) :=
  let step := s.step.getD 1
  if step = 0 then .error (.valueError "slice step cannot be zero")
  else
    let norm : Int → Int := fun i => if i < 0 then i + n else i
    if 0 < step then
      let start := match s.start with
                   | none => 0
                   | some i => min (max (norm i) 0) n
      let stop := match s.stop with
                  | none => (n : Int)
                  | some i => min (max (norm i) 0) n
      let cnt := if start < stop then ((stop - start - 1) / step + 1).toNat else 0
      .ok ((List.range cnt).map (fun k : Nat => (start + (k : Int) * step).toNat))
    else
      let start := match s.start with
                   | none => (n : Int) - 1
                   | some i => min (max (norm i) (-1)) ((n : Int) - 1)
      let stop := match s.stop with
                  | none => -1
                  | some i => min (max (norm i) (-1)) ((n : Int) - 1)
      let cnt := if stop < start then ((start - stop - 1) / (-step) + 1).toNat else 0
      .ok ((List.range cnt).map (fun k : Nat => (start + (k : Int) * step).toNat))

/-- Python `list.__getitem__` with a slice key. -/
def listSlice (casts : List Cast) (s : PySlice) : Except Err (List Cast) := do
  let idxs ← sliceIndices casts.length s
  .ok (idxs.filterMap (fun i => casts.get? i))

/-- Python `list.__getitem__` with an integer key (negative indices count
from the end; out of range raises `IndexError`). -/
def listIndex (casts : List Cast) (i : Int) : Except Err Cast :=
  let j := if i < 0 then i + casts.length else i
  if h : 0 ≤ j ∧ j < casts.length then .ok (casts.get ⟨j.toNat, by omega⟩)
  else .error .indexError

/-- A key passed to `CastCollection.__getitem__`. -/
inductive CCKey where
  | int (i : Int)
  | slice (s : PySlice)
  | str (k : String)
deriving DecidableEq

/-- A value returned by `CastCollection.__getitem__`.  A stacked 2-D matrix
(`np.vstack(...).T`, depth × station) is represented by its list of
*columns*, one per cast in collection order. -/
inductive CCVal where
  | cast (c : Cast)
  | coll (cc : CastCollection)
  | mat (cols : List (List F))
  | plist (l : List PVal)
deriving DecidableEq

/-- `np.vstack([...]).T` on the per-cast rows: requires at least one array
and equal lengths, else `ValueError`.  In the column representation the
result is the input list itself. -/
def vstackT (cols : List (List F)) : Except Err (List (List F)) :=
  match cols with
  | [] => .error (.valueError "need at least one array to concatenate")
  | c0 :: rest =>
      if rest.all (fun c => c.length = c0.length) then .ok (c0 :: rest)
      else .error (.valueError "all the input array dimensions must match")

/-- `CastCollection.__getitem__`: dispatch on the key type — integer,
slice, string-present-as-data-field-everywhere (stacked matrix),
string-present-as-property-everywhere (list of scalars), else `KeyError`.
(In the guarded branches every lookup succeeds, so the `getD` defaults
never fire.) -/
def CastCollection.getKey (cc : CastCollection) : CCKey → Except Err CCVal
  | .int i => (listIndex cc.casts i).map .cast
  | .slice s => (listSlice cc.casts s).map (fun l => .coll ⟨l⟩)
  | .str k =>
      if cc.casts.all (fun c => (alookup c.data k).isSome) then
        (vstackT (cc.casts.map (fun c => (alookup c.data k).getD []))).map .mat
      else if cc.casts.all (fun c => (alookup c.properties k).isSome) then
        .ok (.plist (cc.casts.map (fun c => (alookup c.properties k).getD (.num none))))
      else .error (.keyError k)

/-- `CastCollection.asarray(key)`: stack `cast[key]` into a NaN-padded
matrix of `max cast._len` rows (column representation).  `max` of an empty
sequence raises `ValueError`; a field whose length differs from its cast's
`_len` makes the row assignment raise. -/
def CastCollection.asarray (cc : CastCollection) (key : String) :
    Except Err (List (List F)) :=
  if cc.casts.isEmpty then .error (.valueError "max arg is an empty sequence")
  else
    let nrows := (cc.casts.map Cast.len).foldl max 0
    exMapM (fun c => do
      let v ← c.getVec key
      if v.length = c.len then Except.ok (v ++ List.replicate (nrows - c.len) (none : F))
      else Except.error (Err.valueError "could not broadcast input array")) cc.casts

/-- The consecutive `a.distance(b)` steps of `projdist`. -/
def distSteps (env : Env) : Cast → List Cast → List ℚ
  | _, [] => []
  | a, b :: rest => env.dist a.coords b.coords :: distSteps env b rest

/-- `CastCollection.projdist`: cumulative distances from cast to cast,
starting at 0; `IndexError` on an empty collection (`self.casts[0]`). -/
def CastCollection.projdist (env : Env) (cc : CastCollection) : Except Err (List ℚ) :=
  match cc.casts with
  | [] => .error .indexError
  | c0 :: rest => .ok (List.scanl (· + ·) 0 (distSteps env c0 rest))

/-- `avgcolumns` from `thermal_wind_inner`: the operand with more valid
(non-NaN) samples, preferring `b` on a tie. -/
def avgcolumns (a b : List F) : List F :=
  if (b.filter (fun x => !fisnan x)).length < (a.filter (fun x => !fisnan x)).length then a
  else b

/-- Read a numeric property (`cast.properties[bottomkey]`), to be combined
arithmetically. -/
def getNumProp (c : Cast) (k : String) : Except Err F :=
  match alookup c.properties k with
  | some (.num x) => .ok x
  | some _ => .error .typeError
  | none => .error (.keyError k)

/-- One intermediate cast of `thermal_wind_inner`: midpoint coordinates
(`TypeError` when either cast has none), `avgcolumns`-selected pressure /
temperature / salinity, a fresh `CTDCast`, `add_depth`, and the averaged
bottom-depth property. -/
def mkMidcast (env : Env) (a b : Cast) (bottomkey : String) : Except Err Cast := do
  let ca ← match a.coords with | some co => Except.ok co | none => Except.error Err.typeError
  let cb ← match b.coords with | some co => Except.ok co | none => Except.error Err.typeError
  let cmid := ((ca.1 + cb.1) / 2, (ca.2 + cb.2) / 2)
  let pa ← a.getVec "pres"
  let pb ← b.getVec "pres"
  let ta ← a.getVec "temp"
  let tb ← b.getVec "temp"
  let sa ← a.getVec "sal"
  let sb ← b.getVec "sal"
  let p := avgcolumns pa pb
  let t := avgcolumns ta tb
  let s := avgcolumns sa sb
  let cast := mkCTDCast p s t (some cmid) [] []
  let (cast, _) ← cast.addDepth env none
  let da ← getNumProp a bottomkey
  let db ← getNumProp b bottomkey
  .ok { cast with
        properties := ainsert cast.properties bottomkey
          (.num (fmul (some (1/2)) (fadd da db))) }

/-- The `for i in range(len(self.casts)-1)` midcast loop. -/
def buildMidcasts (env : Env) (bottomkey : String) : List Cast → Except Err (List Cast)
  | [] => .ok []
  | [_] => .ok []
  | a :: b :: rest => do
      let mc ← mkMidcast env a b bottomkey
      let more ← buildMidcasts env bottomkey (b :: rest)
      .ok (mc :: more)

/-- Elementwise binary operation of two equal-shaped matrices (column
representation); numpy raises on a shape mismatch. -/
def matElem (op : F → F → F) (A B : List (List F)) : Except Err (List (List F)) :=
  if A.length = B.length ∧ (A.zip B).all (fun p => p.1.length = p.2.length) then
    .ok (List.zipWith (List.zipWith op) A B)
  else .error (.valueError "operands could not be broadcast together")

/-- The density-key resolution prologue shared textually by `thermal_wind`
and `thermal_wind_inner`: when `rhokey is None`, call `add_density()` on
every cast of the input collection — mutating those casts — and require all
returned keys to agree (`NameError` otherwise; `rhokeys[0]` raises
`IndexError` on an empty collection).  Returns the post-call input
collection and the density key. -/
def resolveRho (env : Env) (cc : CastCollection) (rhokey : Option String) :
    Except Err (CastCollection × String) :=
  match rhokey with
  | some k => .ok (cc, k)
  | none => do
      let pairs ← exMapM (Cast.addDensity env) cc.casts
      match pairs.map Prod.snd with
      | [] => .error .indexError
      | k0 :: krest =>
          if krest.any (fun r => r ≠ k0) then .error .nameError
          else .ok (⟨pairs.map Prod.fst⟩, k0)

/-- The body of `thermal_wind_inner` after density resolution: stack the
density matrix, build the midpoint casts, horizontal density difference
along the projected distances, Coriolis factors from the midpoint
latitudes, `rhoavg = 0.5*(rho[:,:-1]+rho[:,1:])`,
`dudz = (G/rhoavg*drho)/(2*Ω*sinphi)`, vertical integration, and the final
loop adding the ∂U/∂z and U columns to each *midpoint* cast.  Returns the
new collection; the input collection is not touched here. -/
def thermalWindInnerRest (env : Env) (cc : CastCollection) (rk : String)
    (dudzkey ukey bottomkey : String) (overwrite : Bool) :
    Except Err CastCollection := do
  let rho ← cc.asarray rk
  let midcasts ← buildMidcasts env bottomkey cc.casts
  let dists ← cc.projdist env
  let drho := env.diff2_inner rho dists
  let sinphi ← exMapM (fun (c : Cast) =>
      match c.coords with
      | some co => Except.ok (env.sindeg co.2)
      | none => Except.error Err.typeError) midcasts
  let rhoavg ← matElem (fun x y => fmul (some (1/2)) (fadd x y)) rho.dropLast rho.tail
  let gOverRho := rhoavg.map (fun col => col.map (fun x => fdiv Gconst x))
  let prod ← matElem fmul gOverRho drho
  let dudz ← if prod.length = sinphi.length then
      Except.ok (List.zipWith
        (fun col s => col.map (fun x => fdiv x (some (2 * env.omega * s)))) prod sinphi)
    else Except.error (Err.valueError "operands could not be broadcast together")
  let depthM ← CastCollection.asarray ⟨midcasts⟩ "depth"
  let u := env.uintegrate dudz depthM
  let coll' ← exMapM (fun (p : Nat × Cast) => do
      let dcol ← match dudz.get? p.1 with
                 | some cl => Except.ok cl
                 | none => Except.error Err.indexError
      let ucol ← match u.get? p.1 with
                 | some cl => Except.ok cl
                 | none => Except.error Err.indexError
      let (c1, _) := p.2.addKeyData dudzkey dcol overwrite
      let (c2, _) := c1.addKeyData ukey ucol overwrite
      Except.ok c2) midcasts.enum
  .ok ⟨coll'⟩

/-- `CastCollection.thermal_wind_inner`.  The pair returned is
(the input collection in its state after the call — `resolveRho` is the
only part of the body that writes to it — , the newly created midpoint
collection, which is what the Python method returns). -/
def thermalWindInner (env : Env) (cc : CastCollection) (rhokey : Option String)
    (dudzkey ukey bottomkey : String) (overwrite : Bool) :
    Except Err (CastCollection × CastCollection) := do
  let (cc', rk) ← resolveRho env cc rhokey
  let coll ← thermalWindInnerRest env cc' rk dudzkey ukey bottomkey overwrite
  .ok (cc', coll)

/-! ### Shared proof infrastructure -/

/-- The cast length invariant of the spec: every vector in `data` has
length exactly `len(cast)`. -/
def lenInv (c : Cast) : Prop := ∀ kv ∈ c.data, kv.2.length = c.len

theorem exBind_ok {α β : Type} {e : Except Err α} {f : α → Except Err β} {v : β}
    (h : (e >>= f) = .ok v) : ∃ a, e = .ok a ∧ f a = .ok v := by
  cases e with
  | error err => simp [Bind.bind, Except.bind] at h
  | ok a => exact ⟨a, rfl, by simpa [Bind.bind, Except.bind] using h⟩

theorem mem_of_alookup_eq_some {α : Type} {l : List (String × α)} {k : String} {v : α}
    (h : alookup l k = some v) : (k, v) ∈ l := by
  induction l with
  | nil => simp [alookup] at h
  | cons hd tl ih =>
      obtain ⟨k', v'⟩ := hd
      rw [alookup] at h
      by_cases hk : k' = k
      · rw [if_pos hk] at h
        subst hk
        obtain rfl : v' = v := by injection h
        exact List.mem_cons_self _ _
      · rw [if_neg hk] at h
        exact List.mem_cons_of_mem _ (ih h)

theorem mem_ainsert {α : Type} {l : List (String × α)} {k : String} {v : α} {p : String × α}
    (h : p ∈ ainsert l k v) : p = (k, v) ∨ p ∈ l := by
  induction l with
  | nil => simpa [ainsert] using h
  | cons hd tl ih =>
      obtain ⟨k', v'⟩ := hd
      rw [ainsert] at h
      by_cases hk : k' = k
      · rw [if_pos hk] at h
        rcases List.mem_cons.mp h with h1 | h1
        · exact Or.inl h1
        · exact Or.inr (List.mem_cons_of_mem _ h1)
      · rw [if_neg hk] at h
        rcases List.mem_cons.mp h with h1 | h1
        · exact Or.inr (by simp [h1])
        · rcases ih h1 with h2 | h2
          · exact Or.inl h2
          · exact Or.inr (List.mem_cons_of_mem _ h2)

theorem akeys_append {α : Type} (l : List (String × α)) (p : String × α) :
    akeys (l ++ [p]) = akeys l ++ [p.1] := by
  simp [akeys]

/-! ### Claim C4: `_addkeydata` collision behaviour -/

/-- **C4.**  For every Cast and field name, adding a field with
`overwrite=False` never replaces an existing field: the key actually used
is not previously in `data` (so every existing entry survives, and the new
vector is stored and retrievable under the returned name); on a collision
the used name is a `name_j` suffix (`j ≥ 2`), and without a collision it is
`name` itself; two successive calls with the same base name return two
distinct names, the second of which is suffixed. -/
theorem C4_addkeydata_never_overwrites (c : Cast) (key : String) (v₁ v₂ : List F) :
    ((c.addKeyData key v₁ false).2 ∉ akeys c.data) ∧
    ((c.addKeyData key v₁ false).1.data = c.data ++ [((c.addKeyData key v₁ false).2, v₁)]) ∧
    (alookup (c.addKeyData key v₁ false).1.data (c.addKeyData key v₁ false).2 = some v₁) ∧
    (key ∈ akeys c.data → ∃ j, 2 ≤ j ∧ (c.addKeyData key v₁ false).2 = addSuffix key j) ∧
    (key ∉ akeys c.data → (c.addKeyData key v₁ false).2 = key) ∧
    (((c.addKeyData key v₁ false).1.addKeyData key v₂ false).2 ≠ (c.addKeyData key v₁ false).2 ∧
      ∃ j, 2 ≤ j ∧
        ((c.addKeyData key v₁ false).1.addKeyData key v₂ false).2 = addSuffix key j) := by
  have hfresh : freshKey (akeys c.data) key ∉ akeys c.data := freshKey_not_mem _ _
  have hdata : (c.addKeyData key v₁ false).1.data
      = c.data ++ [(freshKey (akeys c.data) key, v₁)] := by
    simp only [Cast.addKeyData, Bool.false_eq_true, if_false]
    exact ainsert_eq_append_of_not_mem _ _ _ hfresh
  have hkey1 : (c.addKeyData key v₁ false).2 = freshKey (akeys c.data) key := by
    simp [Cast.addKeyData]
  have hkeys' : akeys (c.addKeyData key v₁ false).1.data
      = akeys c.data ++ [freshKey (akeys c.data) key] := by
    rw [hdata]; exact akeys_append _ _
  refine ⟨by rw [hkey1]; exact hfresh, by rw [hkey1]; exact hdata, ?_, ?_, ?_, ?_⟩
  · rw [hkey1]
    simp only [Cast.addKeyData, Bool.false_eq_true, if_false]
    exact alookup_ainsert_self _ _ _
  · intro hmem
    rw [hkey1]
    exact freshKey_of_mem _ _ hmem
  · intro hmem
    rw [hkey1]
    exact freshKey_of_not_mem _ _ hmem
  · have hkey2 : ((c.addKeyData key v₁ false).1.addKeyData key v₂ false).2
        = freshKey (akeys (c.addKeyData key v₁ false).1.data) key := by
      simp [Cast.addKeyData]
    have hfresh2 := freshKey_not_mem (akeys (c.addKeyData key v₁ false).1.data) key
    have hk1mem : (c.addKeyData key v₁ false).2 ∈ akeys (c.addKeyData key v₁ false).1.data := by
      rw [hkeys', hkey1]; simp
    constructor
    · intro heq
      rw [← heq] at hk1mem
      rw [hkey2] at hk1mem
      exact hfresh2 hk1mem
    · rw [hkey2]
      apply freshKey_of_mem
      rw [hkeys']
      by_cases hk : key ∈ akeys c.data
      · simp [hk]
      · simp only [List.mem_append, List.mem_singleton]
        exact Or.inr (freshKey_of_not_mem _ _ hk).symm

/-- A concrete C4 input: a cast already owning a `"pres"` field. -/
def c4cast : Cast :=
  { primarykey := "pres", data := [("pres", [some 1])], fields := ["pres"],
    properties := [("coordinates", .coordv none)], len := 1 }

/-- Witness for C4 at a concrete input: the colliding base name `"pres"` is
suffixed. -/
theorem C4_addkeydata_never_overwrites_witness :
    ∃ j, 2 ≤ j ∧ (c4cast.addKeyData "pres" [some 2] false).2 = addSuffix "pres" j :=
  (C4_addkeydata_never_overwrites c4cast "pres" [some 2] [some 3]).2.2.2.1 (by decide)

/-! ### Claim C3: `extend` and the fill value -/

/-- A concrete one-level cast for the `extend` claim. -/
def c3cast : Cast :=
  { primarykey := "pres", data := [("pres", [some 1])], fields := ["pres"],
    properties := [("coordinates", .coordv none)], len := 1 }

/-- **C3 (code bug).**  `extend` does fail for `n ≤ 0`, and it lengthens
every data vector by `n`; but the appended cells are
`padvalue * np.empty(n)` — the fill value times *uninitialised memory* —
not the fill value.  Concretely, with fill `5.0` and an uninitialised cell
holding `2.0`, the appended cell is `10.0 ≠ 5.0`.  (With the default NaN
fill the product is NaN, which is why the bug is invisible in-repo.) -/
theorem C3_extend_fill_bug :
    (c3cast.extend 0 (some 5) (fun _ => some 2) =
      .error (.valueError "Cast already has length 0")) ∧
    (c3cast.extend (-1) (some 5) (fun _ => some 2) =
      .error (.valueError "Cast is longer than length n")) ∧
    (c3cast.extend 1 (some 5) (fun _ => some 2) =
      .ok { c3cast with data := [("pres", [some 1, some 10])], len := 2 }) ∧
    (some (10 : ℚ) ≠ some (5 : ℚ)) ∧
    (∀ junk : Nat → F, c3cast.extend 1 none junk =
      .ok { c3cast with data := [("pres", [some 1, none])], len := 2 }) := by
  refine ⟨rfl, rfl, ?_, by norm_num, ?_⟩
  · simp only [Cast.extend, c3cast]
    norm_num [List.range_succ, fmul]
  · intro junk
    have hj : fmul none (junk 0) = none := rfl
    simp only [Cast.extend, c3cast]
    norm_num [List.range_succ, hj]

/-! ### Claim C6: `interpolate` error handling -/

/-- **C6.**  `interpolate(y, x, v, force)` raises `KeyError` naming `y`
when `y` is not a data field, then `KeyError` naming `x` when `x` is not;
raises `ValueError` when the reference field fails the strict
monotonicity test and `force` is unset; and with `force=True` succeeds
with a result of the same length as the query vector. -/
theorem C6_interpolate_contract (c : Cast) (y x : String) (v : List F) (force : Bool) :
    (alookup c.data y = none → c.interpolate y x v force = .error (.keyError y)) ∧
    ((alookup c.data y).isSome → alookup c.data x = none →
        c.interpolate y x v force = .error (.keyError x)) ∧
    (∀ yv xv, alookup c.data y = some yv → alookup c.data x = some xv →
        strictIncr xv = false → force = false →
        c.interpolate y x v force = .error (.valueError "x is not monotonic")) ∧
    ((alookup c.data y).isSome → (alookup c.data x).isSome → force = true →
        ∃ w, c.interpolate y x v force = .ok w ∧ w.length = v.length) := by
  refine ⟨?_, ?_, ?_, ?_⟩
  · intro hy
    simp [Cast.interpolate, hy]
  · intro hy hx
    obtain ⟨yv, hyv⟩ := Option.isSome_iff_exists.mp hy
    simp [Cast.interpolate, hyv, hx]
  · intro yv xv hyv hxv hmono hforce
    simp [Cast.interpolate, hyv, hxv, hmono, hforce]
  · intro hy hx hforce
    obtain ⟨yv, hyv⟩ := Option.isSome_iff_exists.mp hy
    obtain ⟨xv, hxv⟩ := Option.isSome_iff_exists.mp hx
    by_cases hmono : strictIncr xv
    · exact ⟨npInterp v xv yv, by simp [Cast.interpolate, hyv, hxv, hmono],
        by simp [npInterp]⟩
    · exact ⟨npInterp v (force_monotonic xv) yv,
        by simp [Cast.interpolate, hyv, hxv, hmono, hforce], by simp [npInterp]⟩

/-- A concrete cast with a non-monotonic reference field for the C6
witness. -/
def c6cast : Cast :=
  { primarykey := "pres", data := [("pres", [some 2, some 1]), ("temp", [some 7, some 8])],
    fields := ["pres", "temp"], properties := [("coordinates", .coordv none)], len := 2 }

/-- Witness for C6: on a cast whose `"pres"` vector is decreasing,
interpolation of `"temp"` against `"pres"` fails without `force` and
succeeds (with a length-3 result) with `force`. -/
theorem C6_interpolate_contract_witness :
    (c6cast.interpolate "temp" "pres" [some 1, some 2, some 3] false =
      .error (.valueError "x is not monotonic")) ∧
    (∃ w, c6cast.interpolate "temp" "pres" [some 1, some 2, some 3] true = .ok w ∧
      w.length = 3) := by
  constructor
  · exact (C6_interpolate_contract c6cast "temp" "pres" [some 1, some 2, some 3] false).2.2.1
      [some 7, some 8] [some 2, some 1] rfl rfl
      (by simp [strictIncr, diffF, fsub, fgtZero]) rfl
  · exact (C6_interpolate_contract c6cast "temp" "pres" [some 1, some 2, some 3] true).2.2.2
      rfl rfl rfl

/-! ### Claim C9: negative integer keys in `Cast.__getitem__` -/

theorem getInt_foldr_aux (data : List (String × List F)) (len : Nat) (i : Int)
    (h1 : -(len : Int) ≤ i) (h2 : i < 0) :
    ∀ fields : List String, (∀ f ∈ fields, (alookup data f).isSome) →
      (∀ kv ∈ data, kv.2.length = len) →
      (fields.foldr (fun a acc => do
        let v ← match alookup data a with
                | some v => Except.ok v
                | none => Except.error (Err.keyError a)
        let x ← npIndex v i
        let rest ← acc
        Except.ok ((a, x) :: rest)) (Except.ok [])) =
      .ok (fields.map (fun a =>
        (a, ((alookup data a).getD []).getD ((len : Int) + i).toNat none))) := by
  intro fields
  induction fields with
  | nil => intro _ _; rfl
  | cons a t ih =>
      intro hall hinv
      rw [List.foldr_cons, ih (fun f hf => hall f (List.mem_cons_of_mem _ hf)) hinv]
      obtain ⟨v, hv⟩ := Option.isSome_iff_exists.mp (hall a (List.mem_cons_self _ _))
      have hvlen : v.length = len := hinv (a, v) (mem_of_alookup_eq_some hv)
      rw [hv]
      have hj : (if i < 0 then i + (v.length : Int) else i) = (len : Int) + i := by
        rw [if_pos h2, hvlen]; ring
      have hcond : (0 ≤ (len : Int) + i ∧ (len : Int) + i < (v.length : Int)) := by
        constructor
        · omega
        · rw [hvlen]; omega
      have hnp : npIndex v i = .ok (v.getD ((len : Int) + i).toNat none) := by
        rw [npIndex]
        simp only [hj]
        rw [dif_pos hcond]
        congr 1
        rw [List.get_eq_getElem, List.getD_eq_getElem]
      rw [List.map_cons]
      simp only [Bind.bind, Except.bind, hnp, hv, Option.getD_some]

/-- **C9.**  For `-len(c) ≤ i < 0`, `Cast.__getitem__` does not raise: the
bounds check only tests `i < len(c)`, the negative key reaches the numpy
vectors, and Python negative indexing returns the `(field, value)` pairs of
the observation at position `len(c) + i`. -/
theorem C9_getInt_negative (c : Cast) (i : Int)
    (hsync : ∀ f ∈ c.fields, (alookup c.data f).isSome)
    (hinv : lenInv c)
    (h1 : -(c.len : Int) ≤ i) (h2 : i < 0) :
    c.getInt i = .ok (c.fields.map (fun a =>
      (a, ((alookup c.data a).getD []).getD ((c.len : Int) + i).toNat none))) := by
  have hlen0 : (0 : Int) ≤ (c.len : Int) := Int.natCast_nonneg _
  rw [Cast.getInt, if_pos (lt_of_lt_of_le h2 hlen0)]
  exact getInt_foldr_aux c.data c.len i h1 h2 c.fields hsync hinv

/-- A concrete two-level cast for the C9 witness. -/
def c9cast : Cast :=
  { primarykey := "pres", data := [("pres", [some 1, some 2]), ("temp", [some 7, some 8])],
    fields := ["pres", "temp"], properties := [("coordinates", .coordv none)], len := 2 }

/-- Witness for C9: `c[-1]` on a two-level cast returns the last
observation's pairs instead of raising. -/
theorem C9_getInt_negative_witness :
    c9cast.getInt (-1) = .ok (c9cast.fields.map (fun a =>
      (a, ((alookup c9cast.data a).getD []).getD ((c9cast.len : Int) + (-1)).toNat none))) :=
  C9_getInt_negative c9cast (-1)
    (by intro f hf; fin_cases hf <;> rfl)
    (by intro kv hkv; fin_cases hkv <;> rfl)
    (by decide) (by decide)

/-! ### Claims C1 and C10: the `add_depth` leading-NaN backfill -/

/-- A concrete environment instantiating the external collaborators
(claims never depend on their numeric values). -/
def env0 : Env :=
  { sa_from_sp := fun s _ _ _ => s
    ct_from_t := fun _ t _ => t
    gsw_rho := fun _ _ _ => some 1
    dist := fun _ _ => 1
    sindeg := fun _ => 1
    omega := 1
    diff2_inner := fun rho _ => rho.tail
    uintegrate := fun dudz _ => dudz }

/-- A cast whose density field has one leading NaN followed by the valid
values `2.0, 3.0`. -/
def c1cast : Cast :=
  { primarykey := "pres",
    data := [("pres", [some 1, some 2, some 3]), ("rho", [none, some 2, some 3])],
    fields := ["pres", "rho"],
    properties := [("coordinates", .coordv (some (0, 0)))], len := 3 }

/-- **C1 (code bug).**  The backfill writes `rho[nnans+1]` — the entry
*after* the first valid density — over the leading NaNs, although the
code's own comment says "replacing them with the first non-NaN" (and the
spec says "back-filled from the first valid value").  On density
`[NaN, 2.0, 3.0]` the leading NaN becomes `3.0`, while the first valid
value is `2.0`. -/
theorem C1_backfill_off_by_one :
    ((c1cast.addDepth env0 (some "rho")).map (fun r => alookup r.1.data "rho") =
      .ok (some [some 3, some 2, some 3])) ∧
    (nanBackfill [none, some 2, some 3] = .ok [some 3, some 2, some 3]) ∧
    ([none, some 2, some 3].find? (fun x => !fisnan x) = some (some 2)) ∧
    (some (3 : ℚ) ≠ some (2 : ℚ)) :=
  ⟨rfl, rfl, rfl, by norm_num⟩

theorem countLeadingNaNs_replicate (r0 : F) (rtail : List F) (h : fisnan r0 = false) :
    ∀ k : Nat, countLeadingNaNs (List.replicate k none ++ (r0 :: rtail)) = .ok k := by
  intro k
  induction k with
  | zero => simp [countLeadingNaNs, h]
  | succ k ih =>
      rw [List.replicate_succ, List.cons_append, countLeadingNaNs]
      simp only [fisnan, if_true, ih, Except.map]

/-- **C10.**  For a cast whose density field under `rhokey` begins with
`k ≥ 1` leading NaNs followed by (at least two) finite values,
`add_depth` succeeds and, as a side effect, overwrites the stored density
vector in place: its first `k` entries become the (finite) later density
value `rest[1]`, so the density field itself changes even though the
method only adds a depth field. -/
theorem C10_addDepth_mutates_density (env : Env) (c : Cast) (rk : String)
    (k : Nat) (rest pres : List F)
    (hrho : alookup c.data rk = some (List.replicate k none ++ rest))
    (hk : 1 ≤ k)
    (hfin : ∀ x ∈ rest, x ≠ none)
    (hlen2 : 2 ≤ rest.length)
    (hrk : rk ≠ "pres")
    (hpres : alookup c.data "pres" = some pres)
    (hplen : pres.length = k + rest.length) :
    ∃ c' retkey, c.addDepth env (some rk) = .ok (c', retkey) ∧
      alookup c'.data rk = some (List.replicate k (rest.getD 1 none) ++ rest) ∧
      rest.getD 1 none ≠ none := by
  obtain ⟨r0, rtail, rfl⟩ : ∃ r0 rtail, rest = r0 :: rtail := by
    cases rest with
    | nil => simp at hlen2
    | cons a t => exact ⟨a, t, rfl⟩
  have h1lt : 1 < (r0 :: rtail).length := by simpa using hlen2
  have hfill : (r0 :: rtail).getD 1 none ≠ none := by
    rw [List.getD_eq_getElem _ _ h1lt]
    exact hfin _ (List.getElem_mem h1lt)
  have hr0 : fisnan r0 = false := by
    cases hc : r0 with
    | none => exact absurd rfl (hfin none (by simp [hc]))
    | some q => rfl
  set rho := List.replicate k none ++ (r0 :: rtail) with hrhodef
  have hcount : countLeadingNaNs rho = .ok k := countLeadingNaNs_replicate r0 rtail hr0 k
  have hget : rho.get? (k + 1) = some ((r0 :: rtail).getD 1 none) := by
    rw [List.get?_eq_getElem?, hrhodef]
    rw [List.getElem?_append_right (by simp : (List.replicate k (none : F)).length ≤ k + 1)]
    simp only [List.length_replicate]
    have hidx : k + 1 - k = 1 := by omega
    rw [hidx, List.getElem?_eq_getElem h1lt, List.getD_eq_getElem _ _ h1lt]
  have hbackfill : nanBackfill rho =
      .ok (List.replicate k ((r0 :: rtail).getD 1 none) ++ (r0 :: rtail)) := by
    rw [nanBackfill]
    simp only [Bind.bind, Except.bind, hcount, listGet, hget]
    congr 1
    have : rho.drop k = r0 :: rtail := by
      rw [hrhodef]
      have := List.drop_left (List.replicate k (none : F)) (r0 :: rtail)
      rwa [List.length_replicate] at this
    rw [this]
  set rho' := List.replicate k ((r0 :: rtail).getD 1 none) ++ (r0 :: rtail) with hrhoPdef
  have hrholen : rho.length = k + (r0 :: rtail).length := by simp [hrhodef]
  have hrhoPlen : rho'.length = k + (r0 :: rtail).length := by simp [hrhoPdef]
  have hgetvec : c.getVec rk = .ok rho := by
    simp [Cast.getVec, Cast.getStr, hrho, Bind.bind, Except.bind]
  have hwrite : c.writeRho rk rho' = { c with data := ainsert c.data rk rho' } := by
    rw [Cast.writeRho, hrho]
  have hpres2 : alookup (ainsert c.data rk rho') "pres" = some pres := by
    rw [alookup_ainsert_ne _ _ _ _ hrk, hpres]
  have hgetvec2 : ({ c with data := ainsert c.data rk rho' } : Cast).getVec "pres" = .ok pres := by
    simp [Cast.getVec, Cast.getStr, hpres2, Bind.bind, Except.bind]
  have hpreslen : 0 < pres.length := by rw [hplen]; omega
  obtain ⟨q0, qtail, rfl⟩ : ∃ q0 qtail, pres = q0 :: qtail := by
    cases pres with
    | nil => simp at hpreslen
    | cons a t => exact ⟨a, t, rfl⟩
  have hp0 : listGet (q0 :: qtail) 0 = .ok q0 := rfl
  have hdplen : (listGet (q0 :: qtail) 0).isOk := by rw [hp0]; rfl
  -- lengths of dp and denom agree, so bcOp takes the zipWith branch
  have hdiffLen : (diffF (q0 :: qtail)).length = qtail.length := by
    simp [diffF]
  have hbclen : (q0 :: diffF (q0 :: qtail)).length
      = (rho'.map (fun r => fmul r Gconst)).length := by
    simp only [List.length_cons, hdiffLen, List.length_map, hrhoPlen]
    simpa using hplen
  have hbc : ∃ dz, bcOp fdiv (q0 :: diffF (q0 :: qtail)) (rho'.map (fun r => fmul r Gconst))
      = .ok dz := by
    rw [bcOp, if_pos hbclen]
    exact ⟨_, rfl⟩
  obtain ⟨dz, hdz⟩ := hbc
  set c3 : Cast := { c with data := ainsert c.data rk rho' } with hc3
  set depthv := cumsumF (dz.map (fun x => fmul x (some 10000))) with hdepthv
  have hmain : c.addDepth env (some rk) = .ok (c3.addKeyData "depth" depthv false) := by
    rw [Cast.addDepth]
    simp only [Bind.bind, Except.bind, hgetvec, hbackfill, hwrite, hgetvec2, hp0, hdz,
      hc3, hdepthv]
  have hlook : alookup (c3.addKeyData "depth" depthv false).1.data rk = some rho' := by
    simp only [Cast.addKeyData, Bool.false_eq_true, if_false]
    have hrkmem : rk ∈ akeys c3.data := by
      apply mem_akeys_of_alookup_isSome
      rw [hc3]
      simp only []
      rw [alookup_ainsert_self]
      rfl
    have hdk := freshKey_not_mem (akeys c3.data) "depth"
    have hne : freshKey (akeys c3.data) "depth" ≠ rk := by
      intro he; rw [he] at hdk; exact hdk hrkmem
    rw [alookup_ainsert_ne _ _ _ _ hne]
    exact alookup_ainsert_self _ _ _
  exact ⟨(c3.addKeyData "depth" depthv false).1, (c3.addKeyData "depth" depthv false).2,
    hmain, hlook, hfill⟩

/-- Witness for C10 on the concrete cast `c1cast` (density
`[NaN, 2.0, 3.0]`): `add_depth` succeeds and rewrites the stored density
vector. -/
theorem C10_addDepth_mutates_density_witness :
    ∃ c' retkey, c1cast.addDepth env0 (some "rho") = .ok (c', retkey) ∧
      alookup c'.data "rho" =
        some (List.replicate 1 ([some 2, some 3].getD 1 none) ++ [some 2, some 3]) ∧
      ([some 2, some 3] : List F).getD 1 none ≠ none :=
  C10_addDepth_mutates_density env0 c1cast "rho" 1 [some 2, some 3]
    [some 1, some 2, some 3] rfl (by decide)
    (by intro x hx; fin_cases hx <;> simp) (by decide) (by decide) rfl (by decide)

/-! ### Claim C5: the data-vector length invariant -/

theorem mkCastStep_len (plen : Nat) (c : Cast) (kv : String × PVal) :
    (mkCastStep plen c kv).len = c.len := by
  rcases kv with ⟨k0, v0⟩
  cases v0 with
  | vec v =>
      by_cases h : v.length = plen <;> simp [mkCastStep, h]
  | num x => rfl
  | strv s => rfl
  | coordv co => rfl

theorem mkCast_foldl_len (plen : Nat) :
    ∀ (kwargs : List (String × PVal)) (acc : Cast),
      (List.foldl (mkCastStep plen) acc kwargs).len = acc.len := by
  intro kwargs
  induction kwargs with
  | nil => intro acc; rfl
  | cons kv t ih =>
      intro acc
      rw [List.foldl_cons, ih, mkCastStep_len]

theorem mkCast_foldl_inv (plen : Nat) :
    ∀ (kwargs : List (String × PVal)) (acc : Cast),
      (∀ kv ∈ acc.data, kv.2.length = plen) → acc.len = plen →
      ∀ kv ∈ (List.foldl (mkCastStep plen) acc kwargs).data, kv.2.length = plen := by
  intro kwargs
  induction kwargs with
  | nil => intro acc hinv _; exact hinv
  | cons hd t ih =>
      intro acc hinv hlen
      rw [List.foldl_cons]
      apply ih
      · rcases hd with ⟨k0, v0⟩
        cases v0 with
        | vec v =>
            by_cases h : v.length = plen
            · simp only [mkCastStep, h, if_true]
              intro kv hkv
              rcases mem_ainsert hkv with h1 | h1
              · rw [h1]; exact h
              · exact hinv kv h1
            · simp only [mkCastStep, h, if_false]
              exact hinv
        | num x => exact hinv
        | strv s => exact hinv
        | coordv co => exact hinv
      · rw [mkCastStep_len]; exact hlen

theorem mkCastStep_vec_match (plen : Nat) (acc : Cast) (k0 : String) (v : List F)
    (h : v.length = plen) :
    mkCastStep plen acc (k0, .vec v)
      = { acc with data := ainsert acc.data k0 v, fields := acc.fields ++ [k0] } := by
  simp [mkCastStep, h]

theorem mkCastStep_vec_mismatch (plen : Nat) (acc : Cast) (k0 : String) (v : List F)
    (h : v.length ≠ plen) :
    mkCastStep plen acc (k0, .vec v)
      = { acc with properties := ainsert acc.properties k0 (.vec v) } := by
  simp [mkCastStep, h]

theorem mkCastStep_scalar (plen : Nat) (acc : Cast) (k0 : String) (v0 : PVal)
    (h : ∀ v : List F, v0 ≠ .vec v) :
    mkCastStep plen acc (k0, v0)
      = { acc with properties := ainsert acc.properties k0 v0 } := by
  cases v0 with
  | vec v => exact absurd rfl (h v)
  | num x => rfl
  | strv s => rfl
  | coordv co => rfl

theorem mkCastStep_data_lookup_ne (plen : Nat) (acc : Cast) (k0 : String) (v0 : PVal)
    (kw : String) (hne : k0 ≠ kw) :
    alookup (mkCastStep plen acc (k0, v0)).data kw = alookup acc.data kw := by
  cases v0 with
  | vec v =>
      by_cases h : v.length = plen
      · rw [mkCastStep_vec_match plen acc k0 v h]
        exact alookup_ainsert_ne _ _ _ _ hne
      · rw [mkCastStep_vec_mismatch plen acc k0 v h]
  | num x => rfl
  | strv s => rfl
  | coordv co => rfl

theorem mkCastStep_props_lookup_ne (plen : Nat) (acc : Cast) (k0 : String) (v0 : PVal)
    (kw : String) (hne : k0 ≠ kw) :
    alookup (mkCastStep plen acc (k0, v0)).properties kw = alookup acc.properties kw := by
  cases v0 with
  | vec v =>
      by_cases h : v.length = plen
      · rw [mkCastStep_vec_match plen acc k0 v h]
      · rw [mkCastStep_vec_mismatch plen acc k0 v h]
        exact alookup_ainsert_ne _ _ _ _ hne
  | num x => exact alookup_ainsert_ne _ _ _ _ hne
  | strv s => exact alookup_ainsert_ne _ _ _ _ hne
  | coordv co => exact alookup_ainsert_ne _ _ _ _ hne

theorem mkCast_foldl_preserve (plen : Nat) :
    ∀ (kwargs : List (String × PVal)) (acc : Cast) (kw : String),
      kw ∉ kwargs.map Prod.fst →
      alookup (List.foldl (mkCastStep plen) acc kwargs).properties kw
          = alookup acc.properties kw ∧
      alookup (List.foldl (mkCastStep plen) acc kwargs).data kw = alookup acc.data kw := by
  intro kwargs
  induction kwargs with
  | nil => intro acc kw _; exact ⟨rfl, rfl⟩
  | cons hd t ih =>
      intro acc kw hkw
      simp only [List.map_cons, List.mem_cons] at hkw
      push_neg at hkw
      rw [List.foldl_cons]
      obtain ⟨k0, v0⟩ := hd
      have hne : k0 ≠ kw := fun he => hkw.1 he.symm
      have := ih (mkCastStep plen acc (k0, v0)) kw hkw.2
      exact ⟨this.1.trans (mkCastStep_props_lookup_ne plen acc k0 v0 kw hne),
        this.2.trans (mkCastStep_data_lookup_ne plen acc k0 v0 kw hne)⟩

theorem mkCast_foldl_mismatch (plen : Nat) :
    ∀ (kwargs : List (String × PVal)) (acc : Cast) (kw : String) (v : List F),
      (kw, PVal.vec v) ∈ kwargs → (kwargs.map Prod.fst).Nodup → v.length ≠ plen →
      alookup (List.foldl (mkCastStep plen) acc kwargs).properties kw = some (.vec v) ∧
      alookup (List.foldl (mkCastStep plen) acc kwargs).data kw = alookup acc.data kw := by
  intro kwargs
  induction kwargs with
  | nil => intro acc kw v hmem; simp at hmem
  | cons hd t ih =>
      intro acc kw v hmem hnd hvlen
      simp only [List.map_cons, List.nodup_cons] at hnd
      rw [List.foldl_cons]
      rcases List.mem_cons.mp hmem with heq | hmemt
      · -- the head is exactly the mismatched keyword
        obtain rfl : hd = (kw, PVal.vec v) := heq.symm
        have hnotin : kw ∉ t.map Prod.fst := hnd.1
        rw [mkCastStep_vec_mismatch plen acc kw v hvlen]
        have hpres := mkCast_foldl_preserve plen t
          { acc with properties := ainsert acc.properties kw (.vec v) } kw hnotin
        exact ⟨hpres.1.trans (alookup_ainsert_self _ _ _), hpres.2⟩
      · have hkwmem : kw ∈ t.map Prod.fst :=
          List.mem_map.mpr ⟨(kw, PVal.vec v), hmemt, rfl⟩
        obtain ⟨k0, v0⟩ := hd
        have hne : k0 ≠ kw := fun he => hnd.1 (he ▸ hkwmem)
        have := ih (mkCastStep plen acc (k0, v0)) kw v hmemt hnd.2 hvlen
        exact ⟨this.1, this.2.trans (mkCastStep_data_lookup_ne plen acc k0 v0 kw hne)⟩

theorem mem_ainsert_nodup {α : Type} :
    ∀ {l : List (String × α)} {k : String} {v : α} {p : String × α},
      (akeys l).Nodup → p ∈ ainsert l k v → p = (k, v) ∨ (p ∈ l ∧ p.1 ≠ k) := by
  intro l
  induction l with
  | nil => intro k v p _ h; exact Or.inl (by simpa [ainsert] using h)
  | cons hd tl ih =>
      intro k v p hnd h
      obtain ⟨k0, v0⟩ := hd
      simp only [akeys, List.map_cons, List.nodup_cons] at hnd
      by_cases hk : k0 = k
      · rw [ainsert, if_pos hk] at h
        rcases List.mem_cons.mp h with h1 | h1
        · exact Or.inl h1
        · refine Or.inr ⟨List.mem_cons_of_mem _ h1, ?_⟩
          intro he
          apply hnd.1
          rw [hk, ← he]
          exact List.mem_map.mpr ⟨p, h1, rfl⟩
      · rw [ainsert, if_neg hk] at h
        rcases List.mem_cons.mp h with h1 | h1
        · exact Or.inr ⟨by simp [h1], by rw [h1]; exact hk⟩
        · rcases ih (by simpa [akeys] using hnd.2) h1 with h2 | h2
          · exact Or.inl h2
          · exact Or.inr ⟨List.mem_cons_of_mem _ h2.1, h2.2⟩

/-- **C5.**  The invariant "every vector in `data` has length exactly
`len(cast)`" (i) holds after construction for arbitrary keyword arguments,
(ii) in particular a keyword vector whose length does not match the
primary vector is stored as a property and not added as a data field,
and the invariant is preserved by (iii) string-key assignment, (iv)
`extend`, and (v) `regrid` (for data dicts, whose keys are unique). -/
theorem C5_length_invariant :
    (∀ (p : List F) (coords : Option (ℚ × ℚ)) (props : List (String × PVal))
        (pk : String) (kwargs : List (String × PVal)),
      lenInv (mkCast p coords props pk kwargs)) ∧
    (∀ (p : List F) (coords : Option (ℚ × ℚ)) (props : List (String × PVal))
        (pk : String) (kwargs : List (String × PVal)) (kw : String) (v : List F),
      (kw, PVal.vec v) ∈ kwargs → (kwargs.map Prod.fst).Nodup →
      v.length ≠ p.length → kw ≠ pk →
      alookup (mkCast p coords props pk kwargs).properties kw = some (.vec v) ∧
      alookup (mkCast p coords props pk kwargs).data kw = none) ∧
    (∀ (c : Cast) (k : String) (val : PVal) (c' : Cast) (pv : List F),
      alookup c.data c.primarykey = some pv → lenInv c →
      c.setStr k val = .ok c' → lenInv c') ∧
    (∀ (c : Cast) (n : Int) (pad : F) (junk : Nat → F) (c' : Cast),
      lenInv c → c.extend n pad junk = .ok c' → lenInv c') ∧
    (∀ (c : Cast) (levels : List F) (c' : Cast),
      (akeys c.data).Nodup → c.regrid levels = .ok c' → lenInv c') := by
  refine ⟨?_, ?_, ?_, ?_, ?_⟩
  · -- (i) construction
    intro p coords props pk kwargs
    intro kv hkv
    rw [mkCast]
    rw [mkCast] at hkv
    rw [mkCast_foldl_len]
    refine mkCast_foldl_inv p.length kwargs _ ?_ rfl kv hkv
    intro kv' hkv'
    rcases List.mem_singleton.mp hkv' with rfl
    rfl
  · -- (ii) mismatched keyword becomes a property
    intro p coords props pk kwargs kw v hmem hnd hlen hkw
    have h := mkCast_foldl_mismatch p.length kwargs
      { primarykey := pk, data := [(pk, p)], fields := [pk],
        properties := ainsert props "coordinates" (.coordv coords), len := p.length }
      kw v hmem hnd hlen
    refine ⟨h.1, h.2.trans ?_⟩
    rw [alookup, if_neg (fun he => hkw he.symm)]
    rfl
  · -- (iii) __setitem__ with a string key
    intro c k val c' pv hpk hinv hset
    have hgv : c.getVec c.primarykey = .ok pv := by
      simp [Cast.getVec, Cast.getStr, hpk, Bind.bind, Except.bind]
    rw [Cast.setStr] at hset
    simp only [Bind.bind, Except.bind, hgv] at hset
    have hpvlen : pv.length = c.len := hinv (c.primarykey, pv) (mem_of_alookup_eq_some hpk)
    split at hset
    · -- val is a vector
      rename_i v
      split at hset
      · rename_i hl
        obtain rfl : _ = c' := by injection hset
        intro kv hkv
        rcases mem_ainsert hkv with h1 | h1
        · rw [h1, hl, hpvlen]
        · exact hinv kv h1
      · obtain rfl : _ = c' := by injection hset
        exact hinv
    · obtain rfl : _ = c' := by injection hset
      exact hinv
  · -- (iv) extend
    intro c n pad junk c' hinv hext
    rw [Cast.extend] at hext
    by_cases h0 : n = 0
    · rw [if_pos h0] at hext; cases hext
    · rw [if_neg h0] at hext
      by_cases hneg : n < 0
      · rw [if_pos hneg] at hext; cases hext
      · rw [if_neg hneg] at hext
        obtain rfl : _ = c' := by injection hext
        intro kv hkv
        obtain ⟨kv0, hkv0, rfl⟩ := List.mem_map.mp hkv
        simp only [List.length_append, List.length_map, List.length_range]
        rw [hinv kv0 hkv0]
  · -- (v) regrid
    intro c levels c' hnd hre
    rw [Cast.regrid] at hre
    obtain ⟨pv, hpv, hok⟩ := exBind_ok hre
    obtain rfl : _ = c' := by injection hok
    intro kv hkv
    have hkeys : akeys (c.data.map (fun kv =>
        if kv.1 = c.primarykey then kv else (kv.1, npInterpNaN levels pv kv.2)))
        = akeys c.data := by
      simp only [akeys, List.map_map]
      apply List.map_congr_left
      intro a _
      by_cases h : a.1 = c.primarykey <;> simp [Function.comp, h]
    rcases mem_ainsert_nodup (by rw [hkeys]; exact hnd) hkv with h1 | ⟨h1, h2⟩
    · rw [h1]
    · obtain ⟨kv0, hkv0, rfl⟩ := List.mem_map.mp h1
      by_cases h : kv0.1 = c.primarykey
      · rw [if_pos h] at h2 ⊢
        exact absurd h h2
      · rw [if_neg h]
        simp [npInterpNaN]

/-- Witness for C5: the five parts instantiated on concrete casts. -/
theorem C5_length_invariant_witness :
    (lenInv (mkCast [some 1] none [] "pres"
        [("temp", .vec [some 2]), ("station", .num (some 4))])) ∧
    (alookup (mkCast [some 1] none [] "pres"
        [("extra", .vec [some 5, some 6])]).properties "extra"
      = some (.vec [some 5, some 6]) ∧
     alookup (mkCast [some 1] none [] "pres"
        [("extra", .vec [some 5, some 6])]).data "extra" = none) ∧
    (lenInv { c9cast with
        data := ainsert c9cast.data "new" [some 4, some 4],
        fields := c9cast.fields ++ ["new"] }) ∧
    (lenInv { c9cast with
        data := c9cast.data.map (fun kv => (kv.1, kv.2 ++ [fmul none (some 0)])),
        len := c9cast.len + 1 }) ∧
    (lenInv { c9cast with
        len := 0,
        data := ainsert (c9cast.data.map (fun kv =>
          if kv.1 = "pres" then kv
          else (kv.1, npInterpNaN [] [some 1, some 2] kv.2))) "pres" [] }) := by
  have hinv9 : lenInv c9cast := by
    intro kv hkv; fin_cases hkv <;> rfl
  refine ⟨C5_length_invariant.1 _ _ _ _ _, ?_, ?_, ?_, ?_⟩
  · exact C5_length_invariant.2.1 [some 1] none [] "pres"
      [("extra", .vec [some 5, some 6])] "extra" [some 5, some 6]
      (by simp) (by simp) (by simp) (by simp)
  · exact C5_length_invariant.2.2.1 c9cast "new" (.vec [some 4, some 4]) _
      [some 1, some 2] rfl hinv9 rfl
  · exact C5_length_invariant.2.2.2.1 c9cast 1 none (fun _ => some 0) _ hinv9 rfl
  · exact C5_length_invariant.2.2.2.2 c9cast [] _ (by simp [akeys, c9cast]) rfl

/-! ### Claim C8: `projdist` -/

/-- Default cast for `getD`-style indexing in theorem statements. -/
def dummyCast : Cast :=
  { primarykey := "", data := [], fields := [], properties := [], len := 0 }

theorem distSteps_length (env : Env) :
    ∀ (rest : List Cast) (a : Cast), (distSteps env a rest).length = rest.length := by
  intro rest
  induction rest with
  | nil => intro a; rfl
  | cons b t ih => intro a; simp [distSteps, ih]

theorem distSteps_nonneg (env : Env) (hdist : ∀ a b, 0 ≤ env.dist a b) :
    ∀ (rest : List Cast) (a : Cast) (x : ℚ), x ∈ distSteps env a rest → 0 ≤ x := by
  intro rest
  induction rest with
  | nil => intro a x hx; simp [distSteps] at hx
  | cons b t ih =>
      intro a x hx
      rcases List.mem_cons.mp hx with h | h
      · rw [h]; exact hdist _ _
      · exact ih b x h

theorem distSteps_getD (env : Env) :
    ∀ (rest : List Cast) (a : Cast) (i : Nat), i < rest.length →
      (distSteps env a rest).getD i 0
        = env.dist ((a :: rest).getD i dummyCast).coords ((rest.getD i dummyCast)).coords := by
  intro rest
  induction rest with
  | nil => intro a i hi; simp at hi
  | cons b t ih =>
      intro a i hi
      cases i with
      | zero => rfl
      | succ i =>
          have hi' : i < t.length := by simpa using hi
          simpa [distSteps] using ih b i hi'

theorem scanl_add_getD_zero (a : ℚ) (l : List ℚ) :
    (List.scanl (· + ·) a l).getD 0 0 = a := by
  cases l <;> rfl

theorem scanl_add_getD_succ :
    ∀ (l : List ℚ) (a : ℚ) (i : Nat), i < l.length →
      (List.scanl (· + ·) a l).getD (i + 1) 0
        = (List.scanl (· + ·) a l).getD i 0 + l.getD i 0 := by
  intro l
  induction l with
  | nil => intro a i hi; simp at hi
  | cons x t ih =>
      intro a i hi
      cases i with
      | zero =>
          simp only [List.scanl, List.getD_cons_succ, List.getD_cons_zero]
          rw [scanl_add_getD_zero]
      | succ i =>
          have hi' : i < t.length := by simpa using hi
          simp only [List.scanl, List.getD_cons_succ]
          exact ih (a + x) i hi'

/-- **C8.**  On a non-empty collection (with the great-circle distance
modelled as a nonnegative function), `projdist` returns a vector with one
entry per cast whose first entry is 0, which is monotonically
non-decreasing, and in which each entry is the previous one plus the
distance between the corresponding consecutive cast coordinates. -/
theorem C8_projdist (env : Env) (cc : CastCollection)
    (hdist : ∀ a b, 0 ≤ env.dist a b) (hne : cc.casts ≠ []) :
    ∃ ds, cc.projdist env = .ok ds ∧
      ds.length = cc.casts.length ∧
      ds.getD 0 0 = 0 ∧
      (∀ i, i + 1 < ds.length → ds.getD i 0 ≤ ds.getD (i + 1) 0) ∧
      (∀ i, i + 1 < cc.casts.length →
        ds.getD (i + 1) 0 = ds.getD i 0
          + env.dist ((cc.casts.getD i dummyCast).coords)
              ((cc.casts.getD (i + 1) dummyCast).coords)) := by
  obtain ⟨casts⟩ := cc
  cases casts with
  | nil => exact absurd rfl hne
  | cons c0 rest =>
  refine ⟨List.scanl (· + ·) 0 (distSteps env c0 rest), rfl, ?_, ?_, ?_, ?_⟩
  · rw [List.length_scanl, distSteps_length]
    rfl
  · exact scanl_add_getD_zero 0 _
  · intro i hi
    rw [List.length_scanl, distSteps_length] at hi
    have hi' : i < rest.length := by omega
    rw [scanl_add_getD_succ _ _ _ (by rw [distSteps_length]; exact hi')]
    have hx : 0 ≤ (distSteps env c0 rest).getD i 0 := by
      rw [List.getD_eq_getElem _ _ (by rw [distSteps_length]; exact hi')]
      exact distSteps_nonneg env hdist rest c0 _
        (List.getElem_mem (by rw [distSteps_length]; exact hi'))
    linarith
  · intro i hi
    have hi' : i < rest.length := by simpa using hi
    rw [scanl_add_getD_succ _ _ _ (by rw [distSteps_length]; exact hi'),
      distSteps_getD env rest c0 i hi']
    rfl

/-- A minimal cast at longitude `lon` on the equator. -/
def c8cast (lon : ℚ) : Cast :=
  { primarykey := "pres", data := [("pres", [some 1])], fields := ["pres"],
    properties := [("coordinates", .coordv (some (lon, 0)))], len := 1 }

/-- Witness for C8: three casts at increasing longitude. -/
theorem C8_projdist_witness :
    ∃ ds, (⟨[c8cast 0, c8cast 1, c8cast 2]⟩ : CastCollection).projdist env0 = .ok ds ∧
      ds.length = (⟨[c8cast 0, c8cast 1, c8cast 2]⟩ : CastCollection).casts.length ∧
      ds.getD 0 0 = 0 ∧
      (∀ i, i + 1 < ds.length → ds.getD i 0 ≤ ds.getD (i + 1) 0) ∧
      (∀ i, i + 1 < (⟨[c8cast 0, c8cast 1, c8cast 2]⟩ : CastCollection).casts.length →
        ds.getD (i + 1) 0 = ds.getD i 0
          + env0.dist (((⟨[c8cast 0, c8cast 1, c8cast 2]⟩ : CastCollection).casts.getD
              i dummyCast).coords)
              (((⟨[c8cast 0, c8cast 1, c8cast 2]⟩ : CastCollection).casts.getD
              (i + 1) dummyCast).coords)) :=
  C8_projdist env0 ⟨[c8cast 0, c8cast 1, c8cast 2]⟩
    (fun _ _ => zero_le_one) (by simp)

/-! ### Claim C7: `CastCollection.__getitem__` dispatch -/

theorem slice_pos_bound (n : Nat) (start stop step : Int) (k : Nat)
    (hstart0 : 0 ≤ start) (hstopn : stop ≤ (n : Int)) (hpos : 0 < step)
    (hk : (k : Int) ≤ (stop - start - 1) / step) :
    (start + k * step).toNat < n := by
  have h1 : ((stop - start - 1) / step) * step ≤ stop - start - 1 :=
    Int.ediv_mul_le _ (ne_of_gt hpos)
  have h2 : (k : Int) * step ≤ ((stop - start - 1) / step) * step :=
    mul_le_mul_of_nonneg_right hk (le_of_lt hpos)
  have h3 : 0 ≤ (k : Int) * step := mul_nonneg (Int.natCast_nonneg k) (le_of_lt hpos)
  omega

theorem sliceIndices_ok (n : Nat) (s : PySlice) (hstep : s.step.getD 1 ≠ 0) :
    ∃ idxs, sliceIndices n s = .ok idxs ∧ ∀ j ∈ idxs, j < n := by
  rw [sliceIndices]
  rw [if_neg hstep]
  by_cases hpos : 0 < s.step.getD 1
  · rw [if_pos hpos]
    refine ⟨_, rfl, ?_⟩
    intro j hj
    obtain ⟨k, hk, rfl⟩ := List.mem_map.mp hj
    rw [List.mem_range] at hk
    set start := (match s.start with
                  | none => (0 : Int)
                  | some i => min (max (if i < 0 then i + n else i) 0) n) with hstartdef
    set stop := (match s.stop with
                 | none => (n : Int)
                 | some i => min (max (if i < 0 then i + n else i) 0) n) with hstopdef
    have hstart0 : 0 ≤ start := by
      rw [hstartdef]
      cases s.start with
      | none => simp
      | some i =>
          simp only []
          have : (0 : Int) ≤ (n : Int) := Int.natCast_nonneg n
          omega
    have hstopn : stop ≤ (n : Int) := by
      rw [hstopdef]
      cases s.stop with
      | none => simp
      | some i => simp only []; omega
    by_cases hlt : start < stop
    · rw [if_pos hlt] at hk
      have hk' : (k : Int) ≤ (stop - start - 1) / s.step.getD 1 := by omega
      exact slice_pos_bound n start stop _ k hstart0 hstopn hpos hk'
    · rw [if_neg hlt] at hk
      omega
  · rw [if_neg hpos]
    refine ⟨_, rfl, ?_⟩
    intro j hj
    obtain ⟨k, hk, rfl⟩ := List.mem_map.mp hj
    rw [List.mem_range] at hk
    have hneg : s.step.getD 1 < 0 := by
      rcases lt_or_eq_of_le (not_lt.mp hpos) with h | h
      · exact h
      · exact absurd h hstep
    set start := (match s.start with
                  | none => (n : Int) - 1
                  | some i => min (max (if i < 0 then i + n else i) (-1)) ((n : Int) - 1))
      with hstartdef
    set stop := (match s.stop with
                 | none => (-1 : Int)
                 | some i => min (max (if i < 0 then i + n else i) (-1)) ((n : Int) - 1))
      with hstopdef
    have hstartub : start ≤ (n : Int) - 1 := by
      rw [hstartdef]
      cases s.start with
      | none => simp only []; omega
      | some i => simp only []; omega
    have hstoplb : (-1 : Int) ≤ stop := by
      rw [hstopdef]
      cases s.stop with
      | none => simp only []; omega
      | some i =>
          simp only []
          have : (0 : Int) ≤ (n : Int) := Int.natCast_nonneg n
          omega
    by_cases hlt : stop < start
    · rw [if_pos hlt] at hk
      have hks : (k : Int) * s.step.getD 1 ≤ 0 :=
        mul_nonpos_of_nonneg_of_nonpos (Int.natCast_nonneg k) (le_of_lt hneg)
      omega
    · rw [if_neg hlt] at hk
      omega

/-- **C7.**  `CastCollection.__getitem__` dispatches on the key type:
an in-range integer returns the cast at that position; a slice (with
non-zero step) returns a new collection over the slice (whose selected
positions are all in range); a string present as a data field in every
cast of a non-empty collection (with equal vector lengths, as stacking
requires) returns the stacked matrix with one column per cast in
collection order; a string that is not a data field everywhere but is a
property everywhere returns the ordered list of per-cast values; any other
string key fails with a `KeyError` naming the key. -/
theorem C7_getitem_dispatch (cc : CastCollection) :
    (∀ i : Int, 0 ≤ i → i < (cc.casts.length : Int) →
      cc.getKey (.int i) = .ok (.cast (cc.casts.getD i.toNat dummyCast))) ∧
    (∀ s : PySlice, s.step.getD 1 ≠ 0 →
      ∃ idxs, sliceIndices cc.casts.length s = .ok idxs ∧
        cc.getKey (.slice s) = .ok (.coll ⟨idxs.filterMap (fun j => cc.casts.get? j)⟩) ∧
        ∀ j ∈ idxs, j < cc.casts.length) ∧
    (∀ (k : String) (m : Nat), cc.casts ≠ [] →
      (∀ c ∈ cc.casts, (alookup c.data k).isSome) →
      (∀ c ∈ cc.casts, ((alookup c.data k).getD []).length = m) →
      cc.getKey (.str k)
        = .ok (.mat (cc.casts.map (fun c => (alookup c.data k).getD [])))) ∧
    (∀ k : String,
      cc.casts.all (fun c => (alookup c.data k).isSome) = false →
      cc.casts.all (fun c => (alookup c.properties k).isSome) = true →
      cc.getKey (.str k)
        = .ok (.plist (cc.casts.map (fun c => (alookup c.properties k).getD (.num none))))) ∧
    (∀ k : String,
      cc.casts.all (fun c => (alookup c.data k).isSome) = false →
      cc.casts.all (fun c => (alookup c.properties k).isSome) = false →
      cc.getKey (.str k) = .error (.keyError k)) := by
  refine ⟨?_, ?_, ?_, ?_, ?_⟩
  · -- integer key
    intro i h0 hi
    show (listIndex cc.casts i).map CCVal.cast = _
    have hif : (if i < 0 then i + (cc.casts.length : Int) else i) = i :=
      if_neg (not_lt.mpr h0)
    simp only [listIndex, hif]
    rw [dif_pos ⟨h0, hi⟩]
    simp only [Except.map]
    congr 2
    rw [List.get_eq_getElem, List.getD_eq_getElem _ _ (by omega : i.toNat < cc.casts.length)]
  · -- slice key
    intro s hs
    obtain ⟨idxs, hok, hbnd⟩ := sliceIndices_ok cc.casts.length s hs
    refine ⟨idxs, hok, ?_, hbnd⟩
    show (listSlice cc.casts s).map _ = _
    rw [listSlice]
    simp only [Bind.bind, Except.bind, hok]
    rfl
  · -- string key that is a data field everywhere
    intro k m hne hall hlen
    have hallb : cc.casts.all (fun c => (alookup c.data k).isSome) = true :=
      List.all_eq_true.mpr (fun c hc => hall c hc)
    show (if cc.casts.all (fun c => (alookup c.data k).isSome) then _ else _) = _
    rw [if_pos hallb]
    cases hcasts : cc.casts with
    | nil => exact absurd hcasts hne
    | cons c0 rest =>
        simp only [List.map_cons, vstackT]
        rw [if_pos]
        · rfl
        · apply List.all_eq_true.mpr
          intro col hcol
          obtain ⟨c, hc, rfl⟩ := List.mem_map.mp hcol
          rw [hlen c (by rw [hcasts]; exact List.mem_cons_of_mem _ hc),
            hlen c0 (by rw [hcasts]; exact List.mem_cons_self _ _)]
          simp
  · -- string key that is a property everywhere
    intro k h1 h2
    show (if cc.casts.all (fun c => (alookup c.data k).isSome) then _ else _) = _
    rw [if_neg (by rw [h1]; exact Bool.false_ne_true), if_pos h2]
  · -- key not found in all casts
    intro k h1 h2
    show (if cc.casts.all (fun c => (alookup c.data k).isSome) then _ else _) = _
    rw [if_neg (by rw [h1]; exact Bool.false_ne_true),
      if_neg (by rw [h2]; exact Bool.false_ne_true)]

/-- Concrete casts for the C7 witness: a shared data field `"pres"`,
a shared scalar property `"station"`, and no field `"zzz"`. -/
def c7castA : Cast :=
  { primarykey := "pres", data := [("pres", [some 1])], fields := ["pres"],
    properties := [("coordinates", .coordv none), ("station", .num (some 4))], len := 1 }

/-- Second cast for the C7 witness. -/
def c7castB : Cast :=
  { primarykey := "pres", data := [("pres", [some 2])], fields := ["pres"],
    properties := [("coordinates", .coordv none), ("station", .num (some 5))], len := 1 }

/-- The two-cast collection for the C7 witness. -/
def c7coll : CastCollection := ⟨[c7castA, c7castB]⟩

/-- Witness for C7: all five dispatch branches exercised on `c7coll`. -/
theorem C7_getitem_dispatch_witness :
    (c7coll.getKey (.int 0) = .ok (.cast (c7coll.casts.getD (0 : Int).toNat dummyCast))) ∧
    (∃ idxs, sliceIndices c7coll.casts.length ⟨none, none, none⟩ = .ok idxs ∧
      c7coll.getKey (.slice ⟨none, none, none⟩)
        = .ok (.coll ⟨idxs.filterMap (fun j => c7coll.casts.get? j)⟩) ∧
      ∀ j ∈ idxs, j < c7coll.casts.length) ∧
    (c7coll.getKey (.str "pres")
      = .ok (.mat (c7coll.casts.map (fun c => (alookup c.data "pres").getD [])))) ∧
    (c7coll.getKey (.str "station")
      = .ok (.plist (c7coll.casts.map
          (fun c => (alookup c.properties "station").getD (.num none))))) ∧
    (c7coll.getKey (.str "zzz") = .error (.keyError "zzz")) := by
  refine ⟨?_, ?_, ?_, ?_, ?_⟩
  · exact (C7_getitem_dispatch c7coll).1 0 (by decide) (by decide)
  · exact (C7_getitem_dispatch c7coll).2.1 ⟨none, none, none⟩ (by decide)
  · exact (C7_getitem_dispatch c7coll).2.2.1 "pres" 1 (by simp [c7coll])
      (by intro c hc; fin_cases hc <;> rfl) (by intro c hc; fin_cases hc <;> rfl)
  · exact (C7_getitem_dispatch c7coll).2.2.2.1 "station" rfl rfl
  · exact (C7_getitem_dispatch c7coll).2.2.2.2 "zzz" rfl rfl

/-! ### Claim C2: `thermal_wind_inner` and mutation of its input -/

theorem exMapM_ok {α β : Type} (f : α → Except Err β) :
    ∀ (l : List α) (res : List β), exMapM f l = .ok res →
      res.length = l.length ∧
      ∀ i (hi : i < l.length) (hi' : i < res.length),
        f (l.get ⟨i, hi⟩) = .ok (res.get ⟨i, hi'⟩) := by
  intro l
  induction l with
  | nil =>
      intro res h
      obtain rfl : ([] : List β) = res := by injection h
      exact ⟨rfl, fun i hi _ => absurd hi (by simp)⟩
  | cons a t ih =>
      intro res h
      rw [exMapM] at h
      obtain ⟨b, hb, h⟩ := exBind_ok h
      obtain ⟨bs, hbs, h⟩ := exBind_ok h
      obtain rfl : b :: bs = res := by injection h
      have hih := ih bs hbs
      refine ⟨by simp [hih.1], ?_⟩
      intro i hi hi'
      cases i with
      | zero => exact hb
      | succ i => exact hih.2 i (by simpa using hi) (by simpa using hi')

theorem addDensity_shape (env : Env) (c c' : Cast) (key : String)
    (h : c.addDensity env = .ok (c', key)) :
    key ∉ akeys c.data ∧ (∃ v, c'.data = c.data ++ [(key, v)]) ∧
    c'.fields = (if key ∈ c.fields then c.fields else c.fields ++ [key]) ∧
    c'.properties = c.properties ∧ c'.len = c.len ∧ c'.primarykey = c.primarykey := by
  rw [Cast.addDensity] at h
  obtain ⟨sal, hsal, h⟩ := exBind_ok h
  obtain ⟨pres, hpres, h⟩ := exBind_ok h
  cases hco : c.coords with
  | none =>
      rw [hco] at h
      simp only [Bind.bind, Except.bind] at h
      exact absurd h (by simp)
  | some co =>
      rw [hco] at h
      obtain ⟨co', hco', h⟩ := exBind_ok h
      obtain ⟨temp, htemp, h⟩ := exBind_ok h
      have h2 : (c.addKeyData "rho"
          (zipW3 env.gsw_rho
            (List.zipWith (fun s p => env.sa_from_sp s p co'.1 co'.2) sal pres)
            (zipW3 env.ct_from_t
              (List.zipWith (fun s p => env.sa_from_sp s p co'.1 co'.2) sal pres) temp pres)
            pres) false) = (c', key) := by injection h
      have hc' : (c.addKeyData "rho"
          (zipW3 env.gsw_rho
            (List.zipWith (fun s p => env.sa_from_sp s p co'.1 co'.2) sal pres)
            (zipW3 env.ct_from_t
              (List.zipWith (fun s p => env.sa_from_sp s p co'.1 co'.2) sal pres) temp pres)
            pres) false).1 = c' := by rw [h2]
      have hkey : (c.addKeyData "rho"
          (zipW3 env.gsw_rho
            (List.zipWith (fun s p => env.sa_from_sp s p co'.1 co'.2) sal pres)
            (zipW3 env.ct_from_t
              (List.zipWith (fun s p => env.sa_from_sp s p co'.1 co'.2) sal pres) temp pres)
            pres) false).2 = key := by rw [h2]
      rw [← hc', ← hkey]
      simp only [Cast.addKeyData, Bool.false_eq_true, if_false]
      have hfresh := freshKey_not_mem (akeys c.data) "rho"
      exact ⟨hfresh, ⟨_, ainsert_eq_append_of_not_mem _ _ _ hfresh⟩, trivial,
        trivial, trivial, trivial⟩

theorem resolveRho_none_ok (env : Env) (cc cc₁ : CastCollection) (k0 : String)
    (h : resolveRho env cc none = .ok (cc₁, k0)) :
    ∃ pairs, exMapM (Cast.addDensity env) cc.casts = .ok pairs ∧
      cc₁.casts = pairs.map Prod.fst := by
  rw [resolveRho] at h
  obtain ⟨pairs, hp, h⟩ := exBind_ok h
  refine ⟨pairs, hp, ?_⟩
  split at h
  · exact absurd h (by simp)
  · split at h
    · exact absurd h (by simp)
    · have h2 : ({ casts := List.map Prod.fst pairs } : CastCollection) = cc₁ :=
        congrArg Prod.fst (Except.ok.inj h)
      rw [← h2]

/-- **C2 (amended).**  When `rhokey` is supplied, `thermal_wind_inner`
leaves the input collection exactly as it was; when `rhokey is None` (the
default), the call mutates every cast of the input collection by appending
one in-situ density field via `add_density` — data and `_fields` each grow
by exactly that one entry, while properties, length and primary key are
untouched.  All shear/velocity fields go only to the returned midpoint
collection (`thermalWindInnerRest` never writes to the input).  The
`hsync` hypothesis is the `_fields ⊆ data` bookkeeping invariant every
`Cast` method maintains. -/
theorem C2_thermal_wind_inner_mutation (env : Env) (cc cc' coll : CastCollection)
    (rko : Option String) (d u b : String) (ow : Bool)
    (hsync : ∀ c ∈ cc.casts, ∀ f ∈ c.fields, f ∈ akeys c.data)
    (hrun : thermalWindInner env cc rko d u b ow = .ok (cc', coll)) :
    (rko.isSome → cc' = cc) ∧
    (rko = none → cc'.casts.length = cc.casts.length ∧
      ∀ i (hi : i < cc.casts.length) (hi' : i < cc'.casts.length),
        ∃ key v,
          (cc'.casts.get ⟨i, hi'⟩).data = (cc.casts.get ⟨i, hi⟩).data ++ [(key, v)] ∧
          (cc'.casts.get ⟨i, hi'⟩).fields = (cc.casts.get ⟨i, hi⟩).fields ++ [key] ∧
          (cc'.casts.get ⟨i, hi'⟩).properties = (cc.casts.get ⟨i, hi⟩).properties ∧
          (cc'.casts.get ⟨i, hi'⟩).len = (cc.casts.get ⟨i, hi⟩).len ∧
          (cc'.casts.get ⟨i, hi'⟩).primarykey = (cc.casts.get ⟨i, hi⟩).primarykey) := by
  rw [thermalWindInner] at hrun
  obtain ⟨⟨cc₁, rk⟩, hres, hrun⟩ := exBind_ok hrun
  obtain ⟨coll₁, hcoll, hrun⟩ := exBind_ok hrun
  have hpair : (cc₁, coll₁) = (cc', coll) := by injection hrun
  obtain ⟨rfl, rfl⟩ : cc₁ = cc' ∧ coll₁ = coll :=
    ⟨congrArg Prod.fst hpair, congrArg Prod.snd hpair⟩
  constructor
  · intro hs
    obtain ⟨k, rfl⟩ := Option.isSome_iff_exists.mp hs
    rw [resolveRho] at hres
    have h3 : (cc, k) = (cc₁, rk) := by injection hres
    exact (congrArg Prod.fst h3).symm
  · rintro rfl
    obtain ⟨pairs, hp, hcasts⟩ := resolveRho_none_ok env cc cc₁ rk hres
    have hex := exMapM_ok (Cast.addDensity env) cc.casts pairs hp
    refine ⟨by rw [hcasts]; simp [hex.1], ?_⟩
    intro i hi hi'
    have hip : i < pairs.length := by rw [hex.1]; exact hi
    have hfi := hex.2 i hi hip
    have hget : cc₁.casts.get ⟨i, hi'⟩ = (pairs.get ⟨i, hip⟩).1 := by
      rw [List.get_eq_getElem, ← List.getD_eq_getElem cc₁.casts dummyCast hi', hcasts,
        List.getD_eq_getElem _ _ (by simp [hip] : i < (pairs.map Prod.fst).length)]
      simp [List.get_eq_getElem]
    have hshape := addDensity_shape env (cc.casts.get ⟨i, hi⟩)
      (pairs.get ⟨i, hip⟩).1 (pairs.get ⟨i, hip⟩).2 (by rw [Prod.mk.eta]; exact hfi)
    obtain ⟨hnotin, ⟨v, hv⟩, hfields, hprops, hlen, hpk⟩ := hshape
    refine ⟨(pairs.get ⟨i, hip⟩).2, v, ?_, ?_, ?_, ?_, ?_⟩
    · rw [hget, hv]
    · rw [hget, hfields, if_neg]
      intro hmem
      exact hnotin (hsync _ (List.get_mem cc.casts i hi) _ hmem)
    · rw [hget, hprops]
    · rw [hget, hlen]
    · rw [hget, hpk]

/-- First input cast for the concrete `thermal_wind_inner` run. -/
def c2castX : Cast :=
  { primarykey := "pres",
    data := [("pres", [some 1, some 2]), ("sal", [some 35, some 35]),
             ("temp", [some 10, some 10])],
    fields := ["pres", "sal", "temp"],
    properties := [("coordinates", .coordv (some (0, 0))), ("depth", .num (some 100))],
    len := 2 }

/-- Second input cast (one degree of longitude east). -/
def c2castY : Cast :=
  { primarykey := "pres",
    data := [("pres", [some 1, some 2]), ("sal", [some 35, some 35]),
             ("temp", [some 10, some 10])],
    fields := ["pres", "sal", "temp"],
    properties := [("coordinates", .coordv (some (1, 0))), ("depth", .num (some 100))],
    len := 2 }

/-- The two-station input collection. -/
def cc2in : CastCollection := ⟨[c2castX, c2castY]⟩


/-- `c2castX` after `add_density`. -/
def c2castX' : Cast :=
  { c2castX with
      data := c2castX.data ++ [("rho", [some 1, some 1])],
      fields := ["pres", "sal", "temp", "rho"] }

/-- `c2castY` after `add_density`. -/
def c2castY' : Cast :=
  { c2castY with
      data := c2castY.data ++ [("rho", [some 1, some 1])],
      fields := ["pres", "sal", "temp", "rho"] }

/-- The input collection after the call: every cast has gained a `"rho"`
field. -/
def cc2outSelf : CastCollection := ⟨[c2castX', c2castY']⟩

/-- The returned midpoint collection. -/
def cc2outColl : CastCollection :=
  ⟨[{ primarykey := "pres",
      data := [("pres", [some 1, some 2]), ("sal", [some 35, some 35]),
               ("temp", [some 10, some 10]), ("rho", [some 1, some 1]),
               ("depth", [some (50000 / 49), some (100000 / 49)]),
               ("dudz", [some (49 / 10), some (49 / 10)]),
               ("u", [some (49 / 10), some (49 / 10)])],
      fields := ["pres", "sal", "temp", "rho", "depth", "dudz", "u"],
      properties := [("coordinates", .coordv (some (1 / 2, 0))),
                     ("depth", .num (some 100))],
      len := 2 }]⟩

/-- The concrete `thermal_wind_inner` run, evaluated by kernel reduction:
the returned pair is (post-call input collection, new midpoint
collection). -/
theorem c2run_eval : thermalWindInner env0 cc2in none "dudz" "u" "depth" false
    = .ok (cc2outSelf, cc2outColl) := by
  with_unfolding_all rfl

/-- **C2 (counterexample).**  `thermal_wind_inner` with the default
`rhokey=None` leaves the input collection changed: after the call both
input casts carry a new `"rho"` field, refuting "no field, data vector, or
property of an input cast changes". -/
theorem C2_input_mutated_counterexample :
    (thermalWindInner env0 cc2in none "dudz" "u" "depth" false
      = .ok (cc2outSelf, cc2outColl)) ∧
    cc2in.casts.map Cast.fields = [["pres", "sal", "temp"], ["pres", "sal", "temp"]] ∧
    cc2outSelf.casts.map Cast.fields
      = [["pres", "sal", "temp", "rho"], ["pres", "sal", "temp", "rho"]] ∧
    cc2outSelf.casts.map Cast.fields ≠ cc2in.casts.map Cast.fields ∧
    cc2outSelf ≠ cc2in := by
  refine ⟨c2run_eval, rfl, rfl, by decide, ?_⟩
  intro h
  exact (by decide : cc2outSelf.casts.map Cast.fields ≠ cc2in.casts.map Cast.fields)
    (congrArg (fun cc : CastCollection => cc.casts.map Cast.fields) h)

/-- Witness for the amended C2 on the concrete two-station collection. -/
theorem C2_thermal_wind_inner_mutation_witness :
    ((none : Option String).isSome → cc2outSelf = cc2in) ∧
    ((none : Option String) = none →
      cc2outSelf.casts.length = cc2in.casts.length ∧
      ∀ i (hi : i < cc2in.casts.length) (hi' : i < cc2outSelf.casts.length),
        ∃ key v,
          (cc2outSelf.casts.get ⟨i, hi'⟩).data
            = (cc2in.casts.get ⟨i, hi⟩).data ++ [(key, v)] ∧
          (cc2outSelf.casts.get ⟨i, hi'⟩).fields
            = (cc2in.casts.get ⟨i, hi⟩).fields ++ [key] ∧
          (cc2outSelf.casts.get ⟨i, hi'⟩).properties
            = (cc2in.casts.get ⟨i, hi⟩).properties ∧
          (cc2outSelf.casts.get ⟨i, hi'⟩).len = (cc2in.casts.get ⟨i, hi⟩).len ∧
          (cc2outSelf.casts.get ⟨i, hi'⟩).primarykey
            = (cc2in.casts.get ⟨i, hi⟩).primarykey) :=
  C2_thermal_wind_inner_mutation env0 cc2in cc2outSelf cc2outColl none
    "dudz" "u" "depth" false
    (by intro c hc; fin_cases hc <;> (intro f hf; fin_cases hf <;> decide))
    c2run_eval

/-- A ragged two-cast collection: `"pres"` is a data field of both casts,
but with lengths 1 and 2. -/
def c7ragged : CastCollection :=
  ⟨[{ primarykey := "pres", data := [("pres", [some 1])], fields := ["pres"],
      properties := [("coordinates", .coordv none)], len := 1 },
    { primarykey := "pres", data := [("pres", [some 1, some 2])], fields := ["pres"],
      properties := [("coordinates", .coordv none)], len := 2 }]⟩

/-- **C7 (counterexample).**  A string key present as a data field in
*every* cast does not always return a stacked matrix: when the casts have
different lengths, `np.vstack` raises `ValueError` instead. -/
theorem C7_ragged_counterexample :
    (∀ c ∈ c7ragged.casts, (alookup c.data "pres").isSome) ∧
    c7ragged.getKey (.str "pres")
      = .error (.valueError "all the input array dimensions must match") := by
  refine ⟨?_, rfl⟩
  intro c hc
  fin_cases hc <;> rfl
